import Mathlib

/-!
Verification of the scip-codegen generation engine
(`agent/src/cli/scip-codegen/Codegen.ts`).

The engine is stateful JavaScript; we embed it with explicit effect
tracking: every operation returns a `Delta` recording, in chronological
order, the symbols pushed onto the generation queue, the discriminated
unions registered, the string-literal constants collected, the
diagnostics reported through the `ConsoleReporter`, the artifacts handed
to the `Emitter` (including output-file writes), and the exception, if
one escaped (`err`).  The reporter and emitter are append-only in the
source, so this writer-style embedding is faithful: `Delta.seq` is
sequential composition, and a thrown exception keeps all effects that
happened before the `throw`, exactly as JavaScript mutation does.

Helper modules that the sampled sources only import (`Formatter.ts`,
`BaseCodegen.ts`, `SymbolTable.ts`, `utils.ts`, `stringLiteralType.ts`)
are modelled from the spec; each such definition carries a doc comment
starting with `Modelled from the spec:`.  Everything else is translated
directly from `Codegen.ts`.
-/

/-- Constant values carried by `scip.ConstantType`: the generator only ever
inspects string constants (via `stringLiteralType`); other constants are
opaque. -/
inductive ConstVal where
  | str (value : String)
  | other (tag : String)

deriving instance DecidableEq for ConstVal

/-- Shallow embedding of `scip.Type`: the tagged union over `type_ref`,
`structural_type`, `intersection_type`, `union_type`, `constant_type` and
`lambda_type` described by the data model.  A `type_ref` carries the
referenced symbol and its type arguments; a `structural_type` carries the
member symbols of its declaration scope (`declarations.symlinks`). -/
inductive SType where
  | type_ref (symbol : String) (type_arguments : List SType)
  | structural_type (symlinks : List String)
  | intersection_type (types : List SType)
  | union_type (types : List SType)
  | constant_type (value : ConstVal)
  | lambda_type

/-- Shallow embedding of `scip.Signature`: exactly one of a class
signature (an ordered scope of member symbols), a type signature (a
`lower_bound` type expression) or a value signature (a concrete `tpe`). -/
inductive Signature where
  | class_signature (symlinks : List String)
  | type_signature (lower_bound : SType)
  | value_signature (tpe : SType)

/-- Shallow embedding of `scip.SymbolInformation`: a node of the symbol
graph.  `signature = none` models `has_signature = false`.  Only the
`Class` kind is ever tested by the generator, so the kind is embedded as
the boolean `kindIsClass`. -/
structure SymbolInformation where
  symbol : String := ""
  display_name : String := ""
  kindIsClass : Bool := false
  signature : Option Signature := none

/-- Modelled from the spec: the `SymbolTable` (`SymbolTable.ts` is not
under the sampled sources) is a read-only index resolving a symbol
identifier to its full definition.  Following the design note, it is an
arena of records addressed by interned string keys; a missing symbol
resolves to the default (signature-less) record. -/
structure SymbolTable where
  infos : String → SymbolInformation

/-- Modelled from the spec: `typescriptKeyword` from `utils.ts` (not under
the sampled sources) mints the well-known symbol of a TypeScript
language built-in. -/
def typescriptKeyword (keyword : String) : String :=
  "scip-typescript npm typescript . " ++ keyword ++ "#"

/-- Modelled from the spec: the table mapping TypeScript keyword
primitives (string/number/boolean/etc.) to target-language lexical
forms.  The built-in containers `array` and `Record` are deliberately
not in this table; the engine treats them separately. -/
def typescriptKeywordTable : List (String × String) :=
  [("string", "String"), ("number", "Int"), ("boolean", "Boolean"),
   ("any", "Object"), ("unknown", "Object"), ("null", "Null"),
   ("undefined", "Null"), ("void", "Null"), ("object", "Object"),
   ("bigint", "Long")]

/-- Modelled from the spec: `typescriptKeywordSyntax` from `utils.ts` —
the primitive lexical form of a keyword symbol, or `none` when the
symbol is not a keyword primitive. -/
def typescriptKeywordFormat (symbol : String) : Option String :=
  (typescriptKeywordTable.find? (fun kv => typescriptKeyword kv.1 == symbol)).map
    (fun kv => kv.2)

/-- Modelled from the spec: `isTypescriptKeyword` from `utils.ts` — true
exactly on the keyword-primitive symbols. -/
def isTypescriptKeyword (symbol : String) : Bool :=
  (typescriptKeywordFormat symbol).isSome

/-- Modelled from the spec: `Formatter.isRecord` — the record/map
built-in container symbols, disjoint from the keyword primitives. -/
def recordSymbols : List String :=
  [typescriptKeyword "Record", typescriptKeyword "Map"]

/-- Modelled from the spec: a type reference is a record container when
its symbol is one of the record/map built-ins. -/
def isRecord (symbol : String) : Bool :=
  recordSymbols.contains symbol

/-- Modelled from the spec: `Formatter.isNullable` — a type is nullable
when it is a reference to the `undefined` or `null` keyword (the members
that get stripped from unions such as `FileInfo | null`). -/
def isNullable (t : SType) : Bool :=
  match t with
  | .type_ref s _ => s == typescriptKeyword "undefined" || s == typescriptKeyword "null"
  | _ => false

/-- Modelled from the spec: `stringLiteralType` from
`stringLiteralType.ts` — the literal of a string-literal constant type,
`none` otherwise. -/
def stringLiteralType : SType → Option String
  | .constant_type (.str s) => some s
  | _ => none

/-- Helper mirroring protobuf field access
`info.signature.value_signature.tpe`: the value type when the signature
is a value signature, `none` otherwise (protobuf getters return defaults
on absent variants, and `stringLiteralType` maps the default to `none`). -/
def valueSignatureTpe (info : SymbolInformation) : Option SType :=
  match info.signature with
  | some (.value_signature tpe) => some tpe
  | _ => none

/-- True exactly when `type.has_constant_type` holds. -/
def isConstantType : SType → Bool
  | .constant_type _ => true
  | _ => false

/-- The predicate of the source check
`tpe.has_type_ref && isTypescriptKeyword(tpe.type_ref.symbol)`. -/
def isKeywordTypeRef : SType → Bool
  | .type_ref s _ => isTypescriptKeyword s
  | _ => false

/-- Modelled from the spec: `SymbolTable.structuralType` expands a
class-like symbol into its direct members, in declaration order. -/
def SymbolTable.structuralTypeOf (symtab : SymbolTable) (symbol : String) :
    List SymbolInformation :=
  match (symtab.infos symbol).signature with
  | some (.class_signature symlinks) => symlinks.map symtab.infos
  | _ => []

mutual

/-- Modelled from the spec: `BaseCodegen.properties` (`BaseCodegen.ts` is
not under the sampled sources) — the member symbols of a type shape: the
scope of a structural type, the aggregated members of an intersection,
and the structural expansion of a referenced symbol. -/
def propertiesOf (symtab : SymbolTable) : SType → List String
  | .structural_type symlinks => symlinks
  | .intersection_type types => propertiesOfList symtab types
  | .type_ref symbol _ => (symtab.structuralTypeOf symbol).map (fun i => i.symbol)
  | _ => []

/-- Member symbols aggregated across a list of constituent types. -/
def propertiesOfList (symtab : SymbolTable) : List SType → List String
  | [] => []
  | t :: ts => propertiesOf symtab t ++ propertiesOfList symtab ts

end

/-- Modelled from the spec: `BaseCodegen.infoProperties` — the member
symbols of a class-like `SymbolInformation`, in declaration order: the
scope of a class signature, or the aggregated properties of a value or
type-alias signature. -/
def infoProperties (symtab : SymbolTable) (info : SymbolInformation) : List String :=
  match info.signature with
  | some (.class_signature symlinks) => symlinks
  | some (.value_signature tpe) => propertiesOf symtab tpe
  | some (.type_signature lower_bound) => propertiesOf symtab lower_bound
  | none => []

/-- Modelled from the spec: a type is a string type when it is a closed
set of string literal constants (one literal, or a union of literals). -/
def isStringType : SType → Bool
  | .constant_type (.str _) => true
  | .union_type types =>
      !types.isEmpty && types.all (fun t =>
        match t with
        | .constant_type (.str _) => true
        | _ => false)
  | _ => false

/-- Modelled from the spec: `BaseCodegen.isStringTypeInfo` — a type alias
over a closed set of string literal constants. -/
def isStringTypeInfo (info : SymbolInformation) : Bool :=
  match info.signature with
  | some (.type_signature lower_bound) => isStringType lower_bound
  | _ => false

/-- String constants of a value type: a single literal or the literals of
a union. -/
def stringConstantsFromType : SType → List String
  | .constant_type (.str s) => [s]
  | .union_type types => types.filterMap stringLiteralType
  | _ => []

/-- Modelled from the spec: `BaseCodegen.stringConstantsFromInfo` — the
closed string-literal set carried by a symbol, through either its value
signature or its type-alias lower bound. -/
def stringConstantsFromInfo (info : SymbolInformation) : List String :=
  match info.signature with
  | some (.value_signature tpe) => stringConstantsFromType tpe
  | some (.type_signature lower_bound) => stringConstantsFromType lower_bound
  | _ => []

/-- The `parameter` / `result` role in which a type occurs
(the string union `'parameter' | 'result'` of the source). -/
inductive TypeRole where
  | parameter
  | result

/-- The exact string of the role, as interpolated by the source. -/
def TypeRole.str : TypeRole → String
  | .parameter => "parameter"
  | .result => "result"

/-- One entry of the union-type exception table
(`Formatter.unionTypeExceptionIndex`): a method-symbol prefix paired
with the index of the member to pick. -/
structure UnionException where
  pfx : String
  index : Nat

/-- Severity of a reported diagnostic. -/
inductive Severity where
  | warning
  | error

/-- A flat diagnostic note (used for `additionalInformation` entries). -/
structure DiagnosticBase where
  severity : Severity
  symbol : String
  message : String

/-- Shallow embedding of `Diagnostic`: severity, the symbol the
diagnostic is recorded against, a message, and the additional notes
attached when merged union members conflict. -/
structure Diagnostic where
  severity : Severity
  symbol : String
  message : String
  additionalInformation : List DiagnosticBase := []

/-- The two kinds of exceptions the engine throws:
`TypeError` for malformed graph shapes and plain `Error` for
unsupported unions/types. -/
inductive CgError where
  | typeError (message : String)
  | genericError (message : String)

deriving instance DecidableEq for Severity
deriving instance DecidableEq for TypeRole
deriving instance DecidableEq for CgError
deriving instance DecidableEq for DiagnosticBase
deriving instance DecidableEq for Diagnostic

/-- True exactly on `TypeError`. -/
def CgError.isTypeError : CgError → Bool
  | .typeError _ => true
  | .genericError _ => false

/-- One member of a discriminated union: the discriminator literal and
the member type (`DiscriminatedUnionMember` of `BaseCodegen.ts`). -/
structure DiscriminatedUnionMember where
  value : String
  type : SType

/-- A detected discriminated union: its own symbol, the display name of
the discriminator property, and one entry per surviving member. -/
structure DiscriminatedUnion where
  symbol : String
  discriminatorDisplayName : String
  members : List DiscriminatedUnionMember

/-- One enum member handed to the emitter. -/
structure EnumMember where
  serializedName : String
  formattedName : String

/-- A nested enum synthesized for a string-literal-typed field. -/
structure Enum where
  name : String
  members : List EnumMember

/-- One field of an emitted data class (the `Member` payload handed to
`Emitter.emitDataClass`). -/
structure Member where
  info : SymbolInformation
  typeText : String
  formattedName : String
  oneOfComment : String
  isNullable : Bool

/-- Artifacts handed to the emitter or written to disk, in order:
data classes (with their fields and nested enums, and the sealed parent
when emitted as an inner class), sealed-class brackets, type aliases,
and output-file writes. -/
inductive Emitted where
  | dataClass (name : String) (parentClass : Option String)
      (members : List Member) (enums : List Enum)
  | sealedClassStart (name : String)
  | sealedClassClose (name : String)
  | typeAlias (name : String) (aliasText : String)
  | fileWrite (fileName : String)

/-- The chronological effects of one engine operation: queue pushes,
discriminated-union registrations, sibling-property registrations,
string-literal constants, diagnostics, emitted artifacts, and the
escaped exception if any.  Effects recorded before a `throw` are kept,
exactly as JavaScript mutation keeps them. -/
structure Delta where
  queue : List SymbolInformation := []
  discriminatedUnions : List (String × DiscriminatedUnion) := []
  siblingProperties : List (String × List String) := []
  stringLiteralConstants : List String := []
  diags : List Diagnostic := []
  out : List Emitted := []
  err : Option CgError := none

/-- Sequential composition of effects: if the first operation threw, the
second never runs; otherwise effects are concatenated in order and the
second operation's exception (if any) escapes. -/
def Delta.seq (a b : Delta) : Delta :=
  if a.err.isSome then a
  else
    { queue := a.queue ++ b.queue
      discriminatedUnions := a.discriminatedUnions ++ b.discriminatedUnions
      siblingProperties := a.siblingProperties ++ b.siblingProperties
      stringLiteralConstants := a.stringLiteralConstants ++ b.stringLiteralConstants
      diags := a.diags ++ b.diags
      out := a.out ++ b.out
      err := b.err }

/-- A warning reported through `ConsoleReporter.warn`. -/
def warnDiag (symbol message : String) : Diagnostic :=
  { severity := .warning, symbol := symbol, message := message }

/-- An error reported through `ConsoleReporter.error`. -/
def errorDiag (symbol message : String) : Diagnostic :=
  { severity := .error, symbol := symbol, message := message }

/-- The read-only environment of one generation run: the symbol table
plus the per-language configuration the `Formatter` exposes
(ignored-property substrings, the union-type exception table, ignored
types/infos, the nested-discriminated-union flag, the file extension). -/
structure Codegen where
  symtab : SymbolTable
  ignoredProperties : List String := []
  unionTypeExceptionIndex : List UnionException := []
  ignoredTypeSymbols : List String := []
  ignoredInfoSymbols : List String := []
  isNestedDiscriminatedUnion : Bool := true
  fileExtension : String := "kt"

/-- Modelled from the spec: `Formatter.isIgnoredType` — a configurable
set of type symbols skipped when writing data classes. -/
def Codegen.isIgnoredType (cfg : Codegen) : SType → Bool
  | .type_ref s _ => cfg.ignoredTypeSymbols.contains s
  | _ => false

/-- Modelled from the spec: `Formatter.formatFieldName` — language
specific renaming of a field, abstracted as the identity form. -/
def formatFieldName (name : String) : String := name

/-- Modelled from the spec: the nullability suffix a formatter appends
to a nullable member type. -/
def nullableSuffix (t : SType) : String :=
  if isNullable t then "?" else ""

/-- Modelled from the spec: the deterministic name of a type synthesized
for a structural/intersection shape — a function of the owning method
and the role only (for example `<Method>Params`). -/
def synthesizedTypeName (method : SymbolInformation) (kind : TypeRole) : String :=
  method.display_name.capitalize ++ kind.str.capitalize

/-- Modelled from the spec: `Formatter.jsonrpcTypeName` — the lexical
form of a type occurring in a parameter/result position: keyword
primitives map through the keyword table, named references use the
referenced display name, structural and intersection shapes use the
synthesized deterministic name, string literals render as strings. -/
def jsonrpcTypeName (symtab : SymbolTable) (method : SymbolInformation)
    (t : SType) (kind : TypeRole) : String :=
  match t with
  | .type_ref symbol _ =>
      match typescriptKeywordFormat symbol with
      | some s => s
      | none => (symtab.infos symbol).display_name
  | .structural_type _ => synthesizedTypeName method kind
  | .intersection_type _ => synthesizedTypeName method kind
  | .constant_type (.str _) => "String"
  | .constant_type (.other _) => "Object"
  | .union_type _ => "Object"
  | .lambda_type => "Object"

/-- Modelled from the spec: `Formatter.typeName` — the generated name of
a type, derived from its display name. -/
def typeNameOf (info : SymbolInformation) : String :=
  info.display_name

/-- Modelled from the spec: `Emitter.getFileNameForType` — the output
file name, derived deterministically from the display name and the
target language's file extension. -/
def fileNameForType (cfg : Codegen) (displayName : String) : String :=
  displayName ++ "." ++ cfg.fileExtension

/-- Modelled from the spec: `Formatter.formatEnumType` — the name of the
enum synthesized for a string-literal-typed field. -/
def formatEnumType (displayName : String) : String :=
  displayName.capitalize ++ "Enum"

mutual

/-- Boolean structural equality on types (used by the modelled
`compatibleSignatures`; nested lists prevent a derived instance). -/
def SType.beq : SType → SType → Bool
  | .type_ref s1 a1, .type_ref s2 a2 => s1 == s2 && SType.beqList a1 a2
  | .structural_type l1, .structural_type l2 => l1 == l2
  | .intersection_type t1, .intersection_type t2 => SType.beqList t1 t2
  | .union_type t1, .union_type t2 => SType.beqList t1 t2
  | .constant_type (.str v1), .constant_type (.str v2) => v1 == v2
  | .constant_type (.other v1), .constant_type (.other v2) => v1 == v2
  | .lambda_type, .lambda_type => true
  | _, _ => false

/-- Boolean structural equality on lists of types. -/
def SType.beqList : List SType → List SType → Bool
  | [], [] => true
  | x :: xs, y :: ys => SType.beq x y && SType.beqList xs ys
  | _, _ => false

end

/-- Boolean structural equality on optional signatures. -/
def Signature.beqOpt : Option Signature → Option Signature → Bool
  | none, none => true
  | some (.class_signature l1), some (.class_signature l2) => l1 == l2
  | some (.type_signature t1), some (.type_signature t2) => SType.beq t1 t2
  | some (.value_signature t1), some (.value_signature t2) => SType.beq t1 t2
  | _, _ => false

/-- Modelled from the spec: `BaseCodegen.compatibleSignatures` — two
properties are compatible when their signatures are structurally equal. -/
def compatibleSignatures (a b : SymbolInformation) : Bool :=
  Signature.beqOpt a.signature b.signature

/-- Modelled from the spec: `Formatter.discriminatedUnionTypeName` — the
name of the inner class generated for one union member: the referenced
display name for nominal members, otherwise the sealed parent name
extended by the capitalized discriminator value. -/
def discriminatedUnionTypeName (symtab : SymbolTable) (union : DiscriminatedUnion)
    (member : DiscriminatedUnionMember) : String :=
  match member.type with
  | .type_ref s _ => (symtab.infos s).display_name
  | _ => (symtab.infos union.symbol).display_name ++ member.value.capitalize

/-- The JS substring test `symbol.includes(pat)`. -/
def containsSubstring (s pat : String) : Bool :=
  decide (pat.toList <:+: s.toList)

/-- The JS prefix test `symbol.startsWith(pat)`. -/
def strStartsWith (s pat : String) : Bool :=
  decide (pat.toList <+: s.toList)

/-- The JS suffix test `symbol.endsWith(pat)`. -/
def strEndsWith (s pat : String) : Bool :=
  decide (pat.toList <:+ s.toList)

/-- True exactly when `tpe.has_lambda_type` holds. -/
def isLambdaType : SType → Bool
  | .lambda_type => true
  | _ => false

/-- The expandable members of the `unionTypes` walk: a member that
references a type alias whose lower bound is itself a union resolves to
that inner member list. -/
def unionAliasBound (symtab : SymbolTable) : SType → Option (List SType)
  | .type_ref s _ =>
      match (symtab.infos s).signature with
      | some (.type_signature (.union_type inner)) => some inner
      | _ => none
  | _ => none

/-- One in-place expansion round over the members of a union: each
expandable member is replaced by its inner members, all others are
kept. -/
def expandUnionOnce (symtab : SymbolTable) (ts : List SType) : List SType :=
  ts.flatMap (fun u =>
    match unionAliasBound symtab u with
    | some inner => inner
    | none => [u])

/-- Translation of `Codegen.unionTypes` (the inner `loop`): walk the
members of a union, transitively splicing in the members of any
referenced type alias whose lower bound is itself a union.  The source
recursion (which has no cycle protection — the graph is assumed
acyclic) flattens depth-first in place; iterating the one-step in-place
expansion bounded by `fuel` produces the same list whenever the alias
nesting depth is at most `fuel`, and drops the members a cyclic graph
would make the source diverge on. -/
def unionTypesAux (symtab : SymbolTable) : Nat → List SType → List SType
  | 0, ts => ts.filter (fun u => (unionAliasBound symtab u).isNone)
  | fuel + 1, ts => unionTypesAux symtab fuel (expandUnionOnce symtab ts)

/-- Fuel for transitive union-alias flattening; the source assumes the
finite acyclic graph keeps this nesting shallow. -/
def unionTypesFuel : Nat := 32

/-- Translation of `Codegen.unionTypes`: flattened member list of a
union type (empty for any non-union type). -/
def unionTypes (symtab : SymbolTable) (t : SType) : List SType :=
  match t with
  | .union_type types => unionTypesAux symtab unionTypesFuel types
  | _ => []

/-- Update of the JS insertion-ordered map `candidates` of
`discriminatedUnion`: increment the tally of a property name, first
insertion at the end (JS `Map` preserves first-insertion order). -/
def bumpCount : List (String × Nat) → String → List (String × Nat)
  | [], name => [(name, 1)]
  | (k, c) :: rest, name =>
      if k == name then (k, c + 1) :: rest else (k, c) :: bumpCount rest name

/-- Update of the JS insertion-ordered map `memberss` of
`discriminatedUnion`: append a member under a property name. -/
def addDUMember : List (String × List DiscriminatedUnionMember) → String →
    DiscriminatedUnionMember → List (String × List DiscriminatedUnionMember)
  | [], name, m => [(name, [m])]
  | (k, ms) :: rest, name, m =>
      if k == name then (k, ms ++ [m]) :: rest else (k, ms) :: addDUMember rest name m

/-- One iteration of the inner property loop of `discriminatedUnion`:
a property whose value type is a string literal bumps the candidate
tally of its display name and records a member under that name. -/
def duAccProperty (symtab : SymbolTable) (unionType : SType)
    (acc : List (String × Nat) × List (String × List DiscriminatedUnionMember))
    (propertySymbol : String) :
    List (String × Nat) × List (String × List DiscriminatedUnionMember) :=
  let property := symtab.infos propertySymbol
  match (valueSignatureTpe property).bind stringLiteralType with
  | none => acc
  | some lit =>
      (bumpCount acc.1 property.display_name,
       addDUMember acc.2 property.display_name ⟨lit, unionType⟩)

/-- One iteration of the outer member loop of `discriminatedUnion`. -/
def duAccUnionType (symtab : SymbolTable)
    (acc : List (String × Nat) × List (String × List DiscriminatedUnionMember))
    (unionType : SType) :
    List (String × Nat) × List (String × List DiscriminatedUnionMember) :=
  (propertiesOf symtab unionType).foldl (duAccProperty symtab unionType) acc

/-- First-match count lookup in the `candidates` insertion-ordered map
of `discriminatedUnion` (`candidates.get(name) ?? 0`). -/
def lookupCount (l : List (String × Nat)) (d : String) : Nat :=
  ((l.find? (fun kv => kv.1 == d)).map (fun kv => kv.2)).getD 0

/-- First-match member-list lookup in the `memberss` insertion-ordered
map of `discriminatedUnion` (`memberss.get(candidate) ?? []`). -/
def lookupMembers (l : List (String × List DiscriminatedUnionMember)) (d : String) :
    List DiscriminatedUnionMember :=
  ((l.find? (fun kv => kv.1 == d)).map (fun kv => kv.2)).getD []

/-- The candidate scan of `Codegen.discriminatedUnion` over the
flattened member list: tally for each property display name how many
flattened members expose it as a string literal; the first candidate
(in insertion order) whose tally equals the number of flattened members
becomes the discriminator, with the member entries collected for that name. -/
def duFound (symtab : SymbolTable) (symbol : String) (uts : List SType) :
    Option DiscriminatedUnion :=
  let acc := uts.foldl (duAccUnionType symtab) ([], [])
  (acc.1.find? (fun kv => kv.2 == uts.length)).map (fun kv =>
    { symbol := symbol, discriminatorDisplayName := kv.1,
      members := lookupMembers acc.2 kv.1 })

/-- Translation of `Codegen.discriminatedUnion`: a type alias whose
lower bound is a non-empty union is scanned (after transitive union
flattening) for a property display name carried by every member as a
string literal. -/
def discriminatedUnion (cfg : Codegen) (info : SymbolInformation) :
    Option DiscriminatedUnion :=
  match info.signature with
  | some (.type_signature (.union_type types)) =>
      if types.isEmpty then none
      else duFound cfg.symtab info.symbol (unionTypes cfg.symtab (.union_type types))
  | _ => none

/-- The string-literal properties of one union member, as the detection
loop of `discriminatedUnion` sees them: pairs of property display name
and literal value, in property order. -/
def stringLitProps (symtab : SymbolTable) (m : SType) : List (String × String) :=
  (propertiesOf symtab m).filterMap (fun p =>
    match (valueSignatureTpe (symtab.infos p)).bind stringLiteralType with
    | some lit => some ((symtab.infos p).display_name, lit)
    | none => none)

/-- One candidate-map update, abstracted over the (name, member) entry. -/
def duPairStep
    (acc : List (String × Nat) × List (String × List DiscriminatedUnionMember))
    (e : String × DiscriminatedUnionMember) :
    List (String × Nat) × List (String × List DiscriminatedUnionMember) :=
  (bumpCount acc.1 e.1, addDUMember acc.2 e.1 e.2)

/-- One entry of the `declarations` map of `queueClassLikeInfo`: the
first property seen for a display name, the symbol that created it (the
diagnostic target), the conflict notes collected from incompatible
later occurrences, and the compatible sibling properties. -/
structure DeclEntry where
  info : SymbolInformation
  firstProperty : String
  conflicts : List DiagnosticBase
  siblings : List String

/-- One iteration of the property loop of the type-alias branch of
`queueClassLikeInfo`: first occurrence of a display name creates an
entry; a later occurrence is appended to the siblings when its
signature is compatible, and recorded as a conflict note otherwise. -/
def declInsert : List (String × DeclEntry) → String → SymbolInformation →
    List (String × DeclEntry)
  | [], property, propertyInfo =>
      [(propertyInfo.display_name,
        { info := propertyInfo, firstProperty := property, conflicts := [], siblings := [] })]
  | (k, e) :: rest, property, propertyInfo =>
      if k == propertyInfo.display_name then
        (if compatibleSignatures e.info propertyInfo then
          (k, { e with siblings := e.siblings ++ [property] }) :: rest
        else
          (k, { e with conflicts := e.conflicts ++
            [{ severity := .error, symbol := property, message := "conflict here" }] }) :: rest)
      else (k, e) :: declInsert rest property propertyInfo

/-- The per-name error message of the merged-union branch (abbreviated
from the dedented source text). -/
def incompatibleSignaturesMessage : String :=
  "Incompatible signatures. For discriminated unions, each property name must map to a unique type."

/-- Translation of `Codegen.queueClassLikeInfo`: classify a symbol once
before queuing it.  A symbol without a signature is skipped silently; a
class signature or string type is queued directly; with nested
discriminated unions enabled, a detected union is registered and queued
as a sealed class; any other type alias is creatively merged into a
class signature (reporting an error per incompatible property-name
collision); anything else is a malformed graph (`TypeError`). -/
def queueClassLikeInfo (cfg : Codegen) (jsonrpcMethod : SymbolInformation) : Delta :=
  match jsonrpcMethod.signature with
  | none => {}
  | some (.class_signature _) => { queue := [jsonrpcMethod] }
  | some sig =>
      if isStringTypeInfo jsonrpcMethod then { queue := [jsonrpcMethod] }
      else
        match (if cfg.isNestedDiscriminatedUnion
               then discriminatedUnion cfg jsonrpcMethod else none) with
        | some du =>
            { discriminatedUnions := [(jsonrpcMethod.symbol, du)],
              queue := [jsonrpcMethod] }
        | none =>
          match sig with
          | .type_signature lower_bound =>
              let decls := (propertiesOf cfg.symtab lower_bound).foldl
                (fun acc property => declInsert acc property (cfg.symtab.infos property)) []
              if decls.isEmpty then
                { diags := [warnDiag jsonrpcMethod.symbol "no properties found for this type"] }
              else
                { siblingProperties := decls.map (fun ke => (ke.2.info.symbol, ke.2.siblings)),
                  diags := decls.filterMap (fun ke =>
                    if ke.2.conflicts.isEmpty then none
                    else some { severity := .error, symbol := ke.2.firstProperty,
                                message := incompatibleSignaturesMessage,
                                additionalInformation := ke.2.conflicts }),
                  queue := [{ display_name := jsonrpcMethod.display_name,
                              symbol := jsonrpcMethod.symbol,
                              signature := some (.class_signature
                                (decls.map (fun ke => ke.2.info.symbol))) }] }
          | _ => { err := some (.typeError "unknown info") }

mutual

/-- Structural size of a type, used as fuel for the embedded
`queueClassLikeType` recursion (every recursive call of the source is
on a strict subterm). -/
def SType.size : SType → Nat
  | .type_ref _ args => SType.sizeList args + 1
  | .structural_type _ => 1
  | .intersection_type ts => SType.sizeList ts + 1
  | .union_type ts => SType.sizeList ts + 1
  | .constant_type _ => 1
  | .lambda_type => 1

/-- Accumulated structural size of a list of types. -/
def SType.sizeList : List SType → Nat
  | [] => 0
  | t :: ts => SType.size t + SType.sizeList ts + 1

end

/-- Translation of `Codegen.queueClassLikeType`, structurally recursive
on an explicit fuel so that the definition computes (the source
recursion descends into strict subterms of the type, so `t.size` fuel
always suffices; see `queueClassLikeType`).  Decide, for a type
referenced by generated code, what needs its own generated type.
Arrays/records recurse into their type arguments, keyword primitives
are terminal, named references classify their symbol, structural and
intersection shapes synthesize a deterministic nominal type, unions of
constants are terminal, general unions strip nullable members and
either recurse into the single survivor, stop when only keyword
primitives survive, resolve through the exception table (with a
warning), or throw an unsupported-union error. -/
def queueClassLikeTypeFuel (cfg : Codegen) :
    Nat → SType → SymbolInformation → TypeRole → Delta
  | 0, _, _, _ => { err := some (.genericError "fuel exhausted") }
  | fuel + 1, t, jsonrpcMethod, kind =>
    match t with
    | .type_ref symbol type_arguments =>
        if symbol == typescriptKeyword "array" then
          match type_arguments with
          | arg :: _ => queueClassLikeTypeFuel cfg fuel arg jsonrpcMethod kind
          | [] => { err := some (.typeError "missing array type argument") }
        else if isRecord symbol then
          match type_arguments with
          | [k, v] =>
              (queueClassLikeTypeFuel cfg fuel k jsonrpcMethod kind).seq
                (queueClassLikeTypeFuel cfg fuel v jsonrpcMethod kind)
          | _ => { err := some (.typeError "record must have 2 type arguments") }
        else if (typescriptKeywordFormat symbol).isSome then {}
        else queueClassLikeInfo cfg (cfg.symtab.infos symbol)
    | .structural_type symlinks =>
        queueClassLikeInfo cfg
          { display_name :=
              jsonrpcTypeName cfg.symtab jsonrpcMethod (.structural_type symlinks) kind,
            symbol := jsonrpcMethod.symbol ++ "(" ++ kind.str ++ ").",
            signature := some (.class_signature
              (propertiesOf cfg.symtab (.structural_type symlinks))) }
    | .intersection_type types =>
        queueClassLikeInfo cfg
          { display_name :=
              jsonrpcTypeName cfg.symtab jsonrpcMethod (.intersection_type types) kind,
            symbol := jsonrpcMethod.symbol ++ "(" ++ kind.str ++ ").",
            signature := some (.class_signature
              (propertiesOf cfg.symtab (.intersection_type types))) }
    | .union_type types =>
        if types.all isConstantType then {}
        else if (types.filter (fun u => !isNullable u)).all isKeywordTypeRef then {}
        else
          match types.filter (fun u => !isNullable u) with
          | [u] => queueClassLikeTypeFuel cfg fuel u jsonrpcMethod kind
          | nonNullableTypes =>
            match cfg.unionTypeExceptionIndex.find?
                (fun ex => strStartsWith jsonrpcMethod.symbol ex.pfx) with
            | some ex =>
                (({ diags := [warnDiag jsonrpcMethod.symbol
                     ("resolving unsupported union by picking type " ++ toString ex.index)] } :
                   Delta)).seq
                  (match nonNullableTypes[ex.index]? with
                   | some u => queueClassLikeTypeFuel cfg fuel u jsonrpcMethod kind
                   | none => { err := some (.typeError "undefined union member") })
            | none => { err := some (.genericError "unsupported union type") }
    | .constant_type _ => {}
    | .lambda_type => { err := some (.genericError "unsupported type") }

/-- Translation of `Codegen.queueClassLikeType`: the fueled recursion
started with enough fuel for the whole descent (every recursive call of
the source is on a strict subterm of `t`). -/
def queueClassLikeType (cfg : Codegen) (t : SType)
    (jsonrpcMethod : SymbolInformation) (kind : TypeRole) : Delta :=
  queueClassLikeTypeFuel cfg t.size t jsonrpcMethod kind

/-- Accumulator of the member loop of `writeDataClassUnsafe`: the display
names already generated, the nested enums and fields collected so far,
and the effects so far. -/
structure DCAcc where
  generatedName : List String
  enums : List Enum
  members : List Member
  delta : Delta

/-- Translation of the member loop of `Codegen.writeDataClassUnsafe`
(lines 208 to 290): skip members matching the ignored-property
substrings or shaped like methods; skip (silently) members whose display
name was already generated; throw on members without a value signature;
drop lambda-typed members with a warning; skip ignored types; collect
string-literal constants; synthesize a nested enum for string-literal
sets rendered as strings, otherwise queue the member type (catching and
reporting queueing failures per member); finally record the field. -/
def writeDataClassMembers (cfg : Codegen) : DCAcc → List String → DCAcc
  | acc, [] => acc
  | acc, memberSymbol :: rest =>
    if cfg.ignoredProperties.any (fun ip => containsSubstring memberSymbol ip) then
      writeDataClassMembers cfg acc rest
    else if strEndsWith memberSymbol "()." then
      writeDataClassMembers cfg acc rest
    else
      let member := cfg.symtab.infos memberSymbol
      if acc.generatedName.contains member.display_name then
        writeDataClassMembers cfg acc rest
      else
        let acc1 := { acc with generatedName := acc.generatedName ++ [member.display_name] }
        match member.signature with
        | some (.value_signature tpe) =>
          if isLambdaType tpe then
            let lambdaWarning := warnDiag memberSymbol
              ("ignoring property " ++ member.display_name ++
               " because it does not serialize correctly to JSON")
            let d1 := acc1.delta.seq { diags := [lambdaWarning] }
            writeDataClassMembers cfg { acc1 with delta := d1 } rest
          else if cfg.isIgnoredType tpe then
            writeDataClassMembers cfg acc1 rest
          else
            let memberTypeText := jsonrpcTypeName cfg.symtab member tpe .parameter
            let constants := stringConstantsFromInfo member
            let dConst := acc1.delta.seq { stringLiteralConstants := constants }
            let acc2 := { acc1 with delta := dConst }
            let oneOf := if constants.isEmpty then ""
              else " // Oneof: " ++ String.intercalate ", " constants
            if !constants.isEmpty && strStartsWith memberTypeText "String" then
              let enumTypeName := formatEnumType member.display_name
              let enumMembers := constants.map (fun c =>
                ({ serializedName := c, formattedName := formatFieldName c.capitalize } :
                  EnumMember))
              let field : Member :=
                { info := member, typeText := enumTypeName ++ nullableSuffix tpe,
                  formattedName := formatFieldName member.display_name,
                  oneOfComment := oneOf, isNullable := isNullable tpe }
              let newEnums := acc2.enums ++ [{ name := enumTypeName, members := enumMembers }]
              let newMembers := acc2.members ++ [field]
              writeDataClassMembers cfg
                { acc2 with enums := newEnums, members := newMembers } rest
            else
              let qd := queueClassLikeType cfg tpe member .parameter
              match qd.err with
              | some _ =>
                  let queueFailure := errorDiag memberSymbol
                    ("error handling member " ++ member.symbol)
                  let caught := { qd with err := none, diags := qd.diags ++ [queueFailure] }
                  let d1 := acc2.delta.seq caught
                  writeDataClassMembers cfg { acc2 with delta := d1 } rest
              | none =>
                  let field : Member :=
                    { info := member, typeText := memberTypeText,
                      formattedName := formatFieldName member.display_name,
                      oneOfComment := oneOf, isNullable := isNullable tpe }
                  let d1 := acc2.delta.seq qd
                  let newMembers := acc2.members ++ [field]
                  writeDataClassMembers cfg
                    { acc2 with delta := d1, members := newMembers } rest
        | _ =>
            let d1 := acc1.delta.seq { err := some (.typeError "not a value signature") }
            { acc1 with delta := d1 }

/-- Translation of `Codegen.writeDataClassUnsafe`: warn when a `Class`
kind leaks into the protocol, run the member loop, and hand the
collected fields and enums to `Emitter.emitDataClass` (skipped when the
loop threw — partial effects before the `throw` are kept). -/
def writeDataClassUnsafe (cfg : Codegen) (name : String) (info : SymbolInformation)
    (parentClass : Option String) : Delta :=
  let d0 : Delta :=
    if info.kindIsClass then
      { diags := [warnDiag info.symbol
          "classes should not be exposed in the agent protocol because they do not serialize to JSON"] }
    else {}
  let acc := writeDataClassMembers cfg
    { generatedName := [], enums := [], members := [], delta := d0 }
    (infoProperties cfg.symtab info)
  acc.delta.seq { out := [.dataClass name parentClass acc.members acc.enums] }

/-- Translation of `Codegen.writeDataClass`: run the unsafe writer in a
`try`; a caught exception is converted into an `Error`-severity
diagnostic against the class symbol and the operation returns normally. -/
def writeDataClass (cfg : Codegen) (name : String) (info : SymbolInformation)
    (parentClass : Option String) : Delta :=
  let d := writeDataClassUnsafe cfg name info parentClass
  match d.err with
  | some _ =>
      let failure := errorDiag info.symbol ("Failed to handle class " ++ info.symbol)
      { d with err := none, diags := d.diags ++ [failure] }
  | none => d

/-- Translation of the deduplication loop of `Codegen.writeSealedClass`
(lines 147 to 159): walk the members keeping the first occurrence of
each discriminator value; every later occurrence is dropped with a
warning against the union symbol.  Returns the kept members and the
warnings, each in encounter order. -/
def dedupUnionMembers (symbol : String) :
    List DiscriminatedUnionMember → List String →
    List DiscriminatedUnionMember × List Diagnostic
  | [], _ => ([], [])
  | m :: rest, isHandledCase =>
    if isHandledCase.contains m.value then
      let r := dedupUnionMembers symbol rest isHandledCase
      (r.1, warnDiag symbol ("duplicate discriminator value " ++ m.value) :: r.2)
    else
      let r := dedupUnionMembers symbol rest (isHandledCase ++ [m.value])
      (m :: r.1, r.2)

/-- Translation of the inner-class write of `Codegen.writeSealedClass`:
the info a surviving member is written from — a nominal member resolves
through the symbol table, an anonymous member synthesizes a
value-signature info. -/
def sealedMemberInfo (cfg : Codegen) (union2 : DiscriminatedUnion)
    (member : DiscriminatedUnionMember) : SymbolInformation :=
  match member.type with
  | .type_ref s _ => cfg.symtab.infos s
  | _ => { display_name := discriminatedUnionTypeName cfg.symtab union2 member,
           signature := some (.value_signature member.type) }

/-- The inner-class write of one surviving member. -/
def writeSealedMember (cfg : Codegen) (name : String)
    (union2 : DiscriminatedUnion) (member : DiscriminatedUnionMember) : Delta :=
  writeDataClass cfg (discriminatedUnionTypeName cfg.symtab union2 member)
    (sealedMemberInfo cfg union2 member) (some name)

/-- Translation of `Codegen.writeSealedClass` (continued): after the
deduplication the engine opens the sealed class, writes one inner data
class per surviving member, and closes the class. -/
def writeSealedClass (cfg : Codegen) (name : String) (info : SymbolInformation)
    (union : DiscriminatedUnion) : Delta :=
  let kw := dedupUnionMembers info.symbol union.members []
  let union2 : DiscriminatedUnion := { union with members := kw.1 }
  let d0 : Delta := { diags := kw.2, out := [.sealedClassStart name] }
  let d1 := kw.1.foldl (fun d member => d.seq (writeSealedMember cfg name union2 member)) d0
  d1.seq { out := [.sealedClassClose name] }

/-- Translation of `Codegen.aliasType`: the special-cased `Date` alias,
or the string alias of a string-literal type (whose constants join the
global constant pool — an effect the source performs even when the info
is later ignored). -/
def aliasTypeOf (info : SymbolInformation) : Delta × Option String :=
  if info.display_name == "Date" then ({}, some "String")
  else if isStringTypeInfo info then
    let constants := stringConstantsFromInfo info
    ({ stringLiteralConstants := constants },
     some ("String // One of: " ++ String.intercalate ", " constants))
  else ({}, none)

/-- Translation of `Codegen.writeType`: compute the name and alias,
return early for ignored infos (no file), otherwise emit a type alias,
a sealed class (when the symbol was registered as a discriminated
union) or a data class — and in every non-ignored case write the output
file named after the display name, even when the data-class writer
caught a failure. -/
def writeType (cfg : Codegen)
    (discriminatedUnions : List (String × DiscriminatedUnion))
    (info : SymbolInformation) : Delta :=
  let name := typeNameOf info
  let ar := aliasTypeOf info
  if cfg.ignoredInfoSymbols.contains info.symbol then ar.1
  else
    let body : Delta :=
      match ar.2 with
      | some aliasText => { out := [.typeAlias name aliasText] }
      | none =>
        match discriminatedUnions.find? (fun kv => kv.1 == info.symbol) with
        | some kv => writeSealedClass cfg name info kv.2
        | none => writeDataClass cfg name info none
    ar.1.seq (body.seq { out := [.fileWrite (fileNameForType cfg info.display_name)] })

/-- Translation of the queue-drain loop of `Codegen.run` (lines 77 to
84): pop the next `SymbolInformation`; when its symbol is not in
`generatedSymbols` yet, write its type and add its symbol; repeat until
the queue is empty.  The source queue is a JS array popped from the
back; it is embedded with the next-popped element first, so the symbols
a write pushes (in push order) land reversed in front of the rest.
`write` abstracts the one effect `writeType` has on the loop — the
symbols it pushes onto the queue; the loop consumes fuel because an
arbitrary `write` may push unboundedly (the source relies on the
finite symbol graph).  The returned list collects, in order, the
symbols for which `writeType` was invoked. -/
def drainLoop (write : SymbolInformation → List SymbolInformation) :
    Nat → List SymbolInformation → List String → List String → List String
  | 0, _, _, written => written
  | _ + 1, [], _, written => written
  | fuel + 1, info :: rest, generatedSymbols, written =>
      if generatedSymbols.contains info.symbol then
        drainLoop write fuel rest generatedSymbols written
      else
        drainLoop write fuel ((write info).reverse ++ rest)
          (generatedSymbols ++ [info.symbol]) (written ++ [info.symbol])

/-- True exactly on emitted data classes. -/
def Emitted.isDataClass : Emitted → Bool
  | .dataClass _ _ _ _ => true
  | _ => false

/-- The union as emitted by `writeSealedClass`: only the surviving
(deduplicated) members. -/
def sealedUnion (info : SymbolInformation) (union : DiscriminatedUnion) :
    DiscriminatedUnion :=
  { union with members := (dedupUnionMembers info.symbol union.members []).1 }

/-!  Helper lemmas about the fuel measure. -/

/-- Keyword reference `string`. -/
def strKw : SType := .type_ref (typescriptKeyword "string") []

/-- Keyword reference `number`. -/
def numKw : SType := .type_ref (typescriptKeyword "number") []

/-- Keyword reference `null`. -/
def nullKw : SType := .type_ref (typescriptKeyword "null") []

/-- Reference to the sample class symbol `FileInfo#`. -/
def fileInfoRef : SType := .type_ref "FileInfo#" []

/-- A small sample graph: one empty class `FileInfo`. -/
def sampleSymtab : SymbolTable := ⟨fun s =>
  if s == "FileInfo#" then
    { symbol := "FileInfo#", display_name := "FileInfo",
      signature := some (.class_signature []) }
  else {}⟩

/-- Engine environment over the sample graph, default configuration. -/
def sampleCfg : Codegen := { symtab := sampleSymtab }

/-- Engine environment whose union-type exception table maps the
method-symbol prefix `M#` to member index 1. -/
def exceptionCfg : Codegen :=
  { symtab := sampleSymtab,
    unionTypeExceptionIndex := [{ pfx := "M#", index := 1 }] }

/-- A graph whose class `X` declares two members with the same display
name `x`; the first is method-shaped (symbol ends in `().`). -/
def dupNameSymtab : SymbolTable := ⟨fun s =>
  if s == "X#" then
    { symbol := "X#", display_name := "X",
      signature := some (.class_signature ["X#x().", "X#x."]) }
  else if s == "X#x()." then
    { symbol := "X#x().", display_name := "x",
      signature := some (.value_signature strKw) }
  else if s == "X#x." then
    { symbol := "X#x.", display_name := "x",
      signature := some (.value_signature strKw) }
  else {}⟩

/-- Engine environment over the duplicate-name graph. -/
def dupNameCfg : Codegen := { symtab := dupNameSymtab }

/-- A graph whose class `B` declares a malformed member `bad` (its
signature is not a value signature), making `writeDataClassUnsafe`
throw. -/
def badMemberSymtab : SymbolTable := ⟨fun s =>
  if s == "B#" then
    { symbol := "B#", display_name := "B",
      signature := some (.class_signature ["B#bad."]) }
  else if s == "B#bad." then
    { symbol := "B#bad.", display_name := "bad",
      signature := some (.class_signature []) }
  else {}⟩

/-- Engine environment over the malformed-member graph. -/
def badMemberCfg : Codegen := { symtab := badMemberSymtab }

/-- A graph with a type alias `U` over a union of two structural types,
each carrying a string-literal property `kind` with a distinct value. -/
def duSymtab : SymbolTable := ⟨fun s =>
  if s == "U#" then
    { symbol := "U#", display_name := "U",
      signature := some (.type_signature (.union_type
        [.structural_type ["U#a.kind."], .structural_type ["U#b.kind."]])) }
  else if s == "U#a.kind." then
    { symbol := "U#a.kind.", display_name := "kind",
      signature := some (.value_signature (.constant_type (.str "a"))) }
  else if s == "U#b.kind." then
    { symbol := "U#b.kind.", display_name := "kind",
      signature := some (.value_signature (.constant_type (.str "b"))) }
  else {}⟩

/-- Engine environment over the discriminated-union graph. -/
def duCfg : Codegen := { symtab := duSymtab }

/-- The info the sealed-class witness writes. -/
def sInfo : SymbolInformation := { symbol := "S#", display_name := "S" }

/-- A discriminated union with a duplicated discriminator value `a`. -/
def sealedTestUnion : DiscriminatedUnion :=
  { symbol := "S#", discriminatorDisplayName := "kind",
    members := [{ value := "a", type := fileInfoRef },
                { value := "a", type := fileInfoRef },
                { value := "b", type := fileInfoRef }] }

/-- Specification-side description of the member-loop deduplication:
keep each member symbol whose display name has not been seen yet, in
declaration order. -/
def firstByDisplayName (symtab : SymbolTable) : List String → List String → List String
  | _, [] => []
  | seen, s :: rest =>
      if seen.contains (symtab.infos s).display_name then
        firstByDisplayName symtab seen rest
      else s :: firstByDisplayName symtab (seen ++ [(symtab.infos s).display_name]) rest

/-- The field the data-class writer records for a well-formed member. -/
def dataClassField (cfg : Codegen) (memberSymbol : String) : Member :=
  let member := cfg.symtab.infos memberSymbol
  let tpe := (valueSignatureTpe member).getD .lambda_type
  { info := member,
    typeText := jsonrpcTypeName cfg.symtab member tpe .parameter,
    formattedName := formatFieldName member.display_name,
    oneOfComment := "", isNullable := isNullable tpe }

/-- A member symbol that sails through every skip/throw check of the
member loop: not ignored, not method-shaped, a non-lambda non-ignored
value signature with no string-literal constants, whose type queues
without error and without diagnostics. -/
def CleanMember (cfg : Codegen) (s : String) : Prop :=
  cfg.ignoredProperties.any (fun ip => containsSubstring s ip) = false ∧
  strEndsWith s "()." = false ∧
  ∃ tpe, (cfg.symtab.infos s).signature = some (.value_signature tpe) ∧
    isLambdaType tpe = false ∧
    cfg.isIgnoredType tpe = false ∧
    stringConstantsFromInfo (cfg.symtab.infos s) = [] ∧
    (queueClassLikeType cfg tpe (cfg.symtab.infos s) .parameter).err = none ∧
    (queueClassLikeType cfg tpe (cfg.symtab.infos s) .parameter).diags = []

/-- A graph whose class `W` declares three clean members, the first and
third sharing the display name `x`. -/
def w9Symtab : SymbolTable := ⟨fun s =>
  if s == "W#" then
    { symbol := "W#", display_name := "W",
      signature := some (.class_signature ["W#x.", "W#y.", "W#x2."]) }
  else if s == "W#x." then
    { symbol := "W#x.", display_name := "x",
      signature := some (.value_signature strKw) }
  else if s == "W#y." then
    { symbol := "W#y.", display_name := "y",
      signature := some (.value_signature strKw) }
  else if s == "W#x2." then
    { symbol := "W#x2.", display_name := "x",
      signature := some (.value_signature strKw) }
  else {}⟩

/-- Engine environment over that graph. -/
def w9Cfg : Codegen := { symtab := w9Symtab }

/-- The malformed sample info: a signature that is present but is only a
value signature — none of the shapes `queueClassLikeInfo` recognizes. -/
def valueOnlyInfo : SymbolInformation :=
  { symbol := "V#", display_name := "v",
    signature := some (.value_signature strKw) }

/-- Every type has positive size. -/
theorem SType.size_pos (t : SType) : 1 ≤ t.size := by
  cases t <;> simp only [SType.size] <;> omega

/-- A member of a list is strictly below the accumulated size. -/
theorem SType.size_lt_sizeList_of_mem {u : SType} :
    ∀ {ts : List SType}, u ∈ ts → u.size + 1 ≤ SType.sizeList ts := by
  intro ts h
  induction ts with
  | nil => cases h
  | cons t ts ih =>
      simp only [SType.sizeList]
      rcases List.mem_cons.mp h with rfl | h2
      · omega
      · have := ih h2
        omega

/-- The fueled `queueClassLikeType` recursion is fuel-irrelevant above
the structural size of the type: the source recursion only descends
into strict subterms, so any sufficient fuel computes the same result. -/
theorem queueClassLikeTypeFuel_congr (cfg : Codegen) :
    ∀ (f : Nat) (t : SType) (jsonrpcMethod : SymbolInformation) (kind : TypeRole) (g : Nat),
      t.size ≤ f → t.size ≤ g →
      queueClassLikeTypeFuel cfg f t jsonrpcMethod kind =
        queueClassLikeTypeFuel cfg g t jsonrpcMethod kind := by
  intro f
  induction f using Nat.strong_induction_on with
  | _ f ih =>
    intro t m k g hf hg
    have h1 : 1 ≤ t.size := SType.size_pos t
    obtain ⟨f', rfl⟩ : ∃ f', f = f' + 1 := ⟨f - 1, by omega⟩
    obtain ⟨g', rfl⟩ : ∃ g', g = g' + 1 := ⟨g - 1, by omega⟩
    cases t with
    | type_ref s args =>
        have hsz : (SType.type_ref s args).size = SType.sizeList args + 1 := rfl
        rw [hsz] at hf hg
        simp only [queueClassLikeTypeFuel]
        by_cases harr : (s == typescriptKeyword "array") = true
        · simp only [harr, if_true]
          cases args with
          | nil => rfl
          | cons a rest =>
              have ha : a.size + 1 ≤ SType.sizeList (a :: rest) :=
                SType.size_lt_sizeList_of_mem (List.mem_cons_self a rest)
              exact ih f' (by omega) a m k g' (by omega) (by omega)
        · rw [Bool.not_eq_true] at harr
          simp only [harr, Bool.false_eq_true, if_false]
          by_cases hrec : isRecord s = true
          · simp only [hrec, if_true]
            match args, hf, hg with
            | [], _, _ => rfl
            | [_], _, _ => rfl
            | [a, b], hf, hg =>
                have hA : a.size + 1 ≤ SType.sizeList [a, b] :=
                  SType.size_lt_sizeList_of_mem (by simp)
                have hB : b.size + 1 ≤ SType.sizeList [a, b] :=
                  SType.size_lt_sizeList_of_mem (by simp)
                show (queueClassLikeTypeFuel cfg f' a m k).seq
                    (queueClassLikeTypeFuel cfg f' b m k) =
                  (queueClassLikeTypeFuel cfg g' a m k).seq
                    (queueClassLikeTypeFuel cfg g' b m k)
                rw [ih f' (by omega) a m k g' (by omega) (by omega),
                    ih f' (by omega) b m k g' (by omega) (by omega)]
            | _ :: _ :: _ :: _, _, _ => rfl
          · rw [Bool.not_eq_true] at hrec
            simp only [hrec, Bool.false_eq_true, if_false]
    | structural_type symlinks => rfl
    | intersection_type types => rfl
    | union_type types =>
        have hsz : (SType.union_type types).size = SType.sizeList types + 1 := rfl
        rw [hsz] at hf hg
        simp only [queueClassLikeTypeFuel]
        by_cases hconst : types.all isConstantType = true
        · simp only [hconst, if_true]
        · rw [Bool.not_eq_true] at hconst
          simp only [hconst, Bool.false_eq_true, if_false]
          by_cases hkw : (types.filter (fun u => !isNullable u)).all isKeywordTypeRef = true
          · simp only [hkw, if_true]
          · rw [Bool.not_eq_true] at hkw
            simp only [hkw, Bool.false_eq_true, if_false]
            rcases hfil : types.filter (fun u => !isNullable u) with _ | ⟨u, _ | ⟨v, rest⟩⟩
            · simp only [hfil]
              rfl
            · simp only [hfil]
              have hu : u ∈ types :=
                List.mem_of_mem_filter (hfil ▸ List.mem_singleton_self u)
              have := SType.size_lt_sizeList_of_mem hu
              exact ih f' (by omega) u m k g' (by omega) (by omega)
            · simp only [hfil]
              cases hex : cfg.unionTypeExceptionIndex.find?
                  (fun ex => strStartsWith m.symbol ex.pfx) with
              | none => rfl
              | some ex =>
                  cases hidx : (u :: v :: rest)[ex.index]? with
                  | none => simp only [hidx]
                  | some w =>
                      have hw : w ∈ types := by
                        have hmem : w ∈ u :: v :: rest := List.getElem?_mem hidx
                        exact List.mem_of_mem_filter (hfil ▸ hmem)
                      have := SType.size_lt_sizeList_of_mem hw
                      simp only [hidx]
                      rw [ih f' (by omega) w m k g' (by omega) (by omega)]
    | constant_type v => rfl
    | lambda_type => rfl

/-- The fueled recursion agrees with `queueClassLikeType` for any
sufficient fuel. -/
theorem queueClassLikeTypeFuel_eq (cfg : Codegen) (f : Nat) (t : SType)
    (jsonrpcMethod : SymbolInformation) (kind : TypeRole) (h : t.size ≤ f) :
    queueClassLikeTypeFuel cfg f t jsonrpcMethod kind =
      queueClassLikeType cfg t jsonrpcMethod kind :=
  queueClassLikeTypeFuel_congr cfg f t jsonrpcMethod kind t.size h (Nat.le_refl _)

/-!  Concrete inputs used by witnesses and counterexamples. -/

/-!  Claim theorems. -/

/-- Invariant of the drain loop: when the written symbols are all in the
generated set and pairwise distinct, they stay so. -/
theorem drainLoop_nodup (write : SymbolInformation → List SymbolInformation) :
    ∀ (fuel : Nat) (queue : List SymbolInformation) (gen written : List String),
      written.Nodup → (∀ s ∈ written, s ∈ gen) →
      (drainLoop write fuel queue gen written).Nodup := by
  intro fuel
  induction fuel with
  | zero =>
      intro queue gen written hnd _
      simpa [drainLoop] using hnd
  | succ n ih =>
      intro queue gen written hnd hsub
      cases queue with
      | nil => simpa [drainLoop] using hnd
      | cons info rest =>
          simp only [drainLoop]
          by_cases hc : gen.contains info.symbol = true
          · simp only [hc, if_true]
            exact ih rest gen written hnd hsub
          · rw [Bool.not_eq_true] at hc
            simp only [hc, Bool.false_eq_true, if_false]
            have hgen : info.symbol ∉ gen := by
              intro hmem
              rw [← List.elem_iff] at hmem
              simp [List.contains] at hc
              simp [hc] at hmem
            have hwr : info.symbol ∉ written := fun hmem => hgen (hsub _ hmem)
            apply ih
            · simp [List.nodup_append, hnd, hwr]
            · intro s hs
              rcases List.mem_append.mp hs with h1 | h1
              · exact List.mem_append_left _ (hsub s h1)
              · exact List.mem_append_right _ h1

/-- C1: in one `run()`, every popped symbol already in
`generatedSymbols` is skipped, so `writeType` is invoked at most once
per distinct symbol — the list of written symbols has no duplicates,
whatever the queue contents and however many symbols each write pushes
back onto the queue. -/
theorem c1_each_symbol_written_at_most_once
    (write : SymbolInformation → List SymbolInformation)
    (fuel : Nat) (queue : List SymbolInformation) :
    (drainLoop write fuel queue [] []).Nodup :=
  drainLoop_nodup write fuel queue [] [] List.nodup_nil (by intro s hs; cases hs)

/-- C6: a structural or intersection type in a parameter/result position
queues exactly one synthesized `SymbolInformation`, whose symbol is the
owning method symbol followed by the parenthesized role and a dot, and
whose display name is a function of the owning method and role only. -/
theorem c6_synthesized_type_deterministic (cfg : Codegen)
    (jsonrpcMethod : SymbolInformation) (kind : TypeRole) :
    (∀ symlinks : List String,
      (queueClassLikeType cfg (.structural_type symlinks) jsonrpcMethod kind).queue =
        [{ symbol := jsonrpcMethod.symbol ++ "(" ++ kind.str ++ ").",
           display_name := synthesizedTypeName jsonrpcMethod kind,
           kindIsClass := false,
           signature := some (.class_signature symlinks) }])
    ∧ (∀ types : List SType,
      (queueClassLikeType cfg (.intersection_type types) jsonrpcMethod kind).queue =
        [{ symbol := jsonrpcMethod.symbol ++ "(" ++ kind.str ++ ").",
           display_name := synthesizedTypeName jsonrpcMethod kind,
           kindIsClass := false,
           signature := some (.class_signature (propertiesOfList cfg.symtab types)) }]) :=
  ⟨fun _ => rfl, fun _ => rfl⟩

/-- C8: a union whose non-nullable members are all keyword-primitive
type references queues nothing, reports nothing and throws nothing. -/
theorem c8_primitive_union_is_terminal (cfg : Codegen)
    (types : List SType) (jsonrpcMethod : SymbolInformation) (kind : TypeRole)
    (h : ∀ t ∈ types, isNullable t = false → isKeywordTypeRef t = true) :
    queueClassLikeType cfg (.union_type types) jsonrpcMethod kind = {} := by
  show queueClassLikeTypeFuel cfg (SType.sizeList types + 1)
    (.union_type types) jsonrpcMethod kind = {}
  simp only [queueClassLikeTypeFuel]
  by_cases hconst : types.all isConstantType = true
  · simp [hconst]
  · rw [Bool.not_eq_true] at hconst
    simp only [hconst, Bool.false_eq_true, if_false]
    have hkw : (types.filter (fun u => !isNullable u)).all isKeywordTypeRef = true := by
      rw [List.all_eq_true]
      intro u hu
      have hm := List.mem_filter.mp hu
      exact h u hm.1 (by simpa using hm.2)
    simp [hkw]

/-- Witness for C8 at the concrete union `string | number`. -/
theorem c8_witness :
    queueClassLikeType sampleCfg (.union_type [strKw, numKw]) {} .parameter = {} :=
  c8_primitive_union_is_terminal sampleCfg [strKw, numKw] {} .parameter (by decide)

/-- C7: when stripping the nullable members of a union leaves exactly
one member, the engine behaves exactly as if that member had appeared
alone — the same effects, no wrapper type for the union itself, and
independent of the order of the union members. -/
theorem c7_single_non_nullable_member (cfg : Codegen) (types : List SType)
    (jsonrpcMethod : SymbolInformation) (kind : TypeRole) (u : SType)
    (h : types.filter (fun t => !isNullable t) = [u]) :
    queueClassLikeType cfg (.union_type types) jsonrpcMethod kind =
      queueClassLikeType cfg u jsonrpcMethod kind := by
  have hu : u ∈ types := List.mem_of_mem_filter (h ▸ List.mem_singleton_self u)
  show queueClassLikeTypeFuel cfg (SType.sizeList types + 1)
      (.union_type types) jsonrpcMethod kind = _
  simp only [queueClassLikeTypeFuel]
  by_cases hconst : types.all isConstantType = true
  · have hcu : isConstantType u = true := List.all_eq_true.mp hconst u hu
    cases u with
    | constant_type v => simp [hconst]; rfl
    | _ => simp [isConstantType] at hcu
  · rw [Bool.not_eq_true] at hconst
    simp only [hconst, Bool.false_eq_true, if_false]
    by_cases hkw : (types.filter (fun t => !isNullable t)).all isKeywordTypeRef = true
    · rw [h] at hkw
      have hku : isKeywordTypeRef u = true := by simpa using hkw
      rw [h]
      simp only [List.all_cons, List.all_nil, Bool.and_true] at hkw ⊢
      simp only [hkw, if_true]
      cases u with
      | type_ref s args =>
          have hfmt : (typescriptKeywordFormat s).isSome = true := by
            simpa [isKeywordTypeRef, isTypescriptKeyword] using hku
          have harr : (s == typescriptKeyword "array") = false := by
            cases hsa : s == typescriptKeyword "array"
            · rfl
            · exfalso
              have : s = typescriptKeyword "array" := by
                exact (beq_iff_eq (a := s)).mp hsa
              rw [this] at hfmt
              simp [typescriptKeywordFormat, typescriptKeywordTable,
                typescriptKeyword] at hfmt
          have hrec : isRecord s = false := by
            cases hr : isRecord s
            · rfl
            · exfalso
              have hmem : s ∈ recordSymbols := by
                simpa [isRecord, List.contains] using hr
              simp only [recordSymbols, List.mem_cons, List.not_mem_nil,
                or_false] at hmem
              rcases hmem with h1 | h1 <;> rw [h1] at hfmt <;>
                simp [typescriptKeywordFormat, typescriptKeywordTable,
                  typescriptKeyword] at hfmt
          show _ = queueClassLikeTypeFuel cfg (SType.sizeList args + 1)
            (.type_ref s args) jsonrpcMethod kind
          simp only [queueClassLikeTypeFuel, harr, Bool.false_eq_true, if_false,
            hrec, hfmt, if_true]
      | _ => simp [isKeywordTypeRef] at hku
    · rw [Bool.not_eq_true] at hkw
      simp only [hkw, Bool.false_eq_true, if_false]
      rw [h]
      exact queueClassLikeTypeFuel_eq cfg (SType.sizeList types) u jsonrpcMethod kind
        (by have := SType.size_lt_sizeList_of_mem hu; omega)

/-- Witness for C7 at the concrete union `null | FileInfo`. -/
theorem c7_witness :
    queueClassLikeType sampleCfg (.union_type [nullKw, fileInfoRef]) {} .parameter =
      queueClassLikeType sampleCfg fileInfoRef {} .parameter :=
  c7_single_non_nullable_member sampleCfg [nullKw, fileInfoRef] {} .parameter
    fileInfoRef rfl

/-- Counterexample to C3 as stated: the union of the two string
constants `a` and `b` has two non-nullable members, none of which is a
keyword-primitive type reference, and the method symbol `N#m` matches
no prefix of the (empty) exception table — yet `queueClassLikeType`
returns normally with no effects at all, because the all-constant check
returns before the general union handling is reached; no error is
raised and no warning recorded. -/
theorem c3_counterexample :
    isNullable (.constant_type (.str "a")) = false ∧
    isNullable (.constant_type (.str "b")) = false ∧
    isKeywordTypeRef (.constant_type (.str "a")) = false ∧
    isKeywordTypeRef (.constant_type (.str "b")) = false ∧
    sampleCfg.unionTypeExceptionIndex = [] ∧
    queueClassLikeType sampleCfg
      (.union_type [.constant_type (.str "a"), .constant_type (.str "b")])
      { symbol := "N#m" } .parameter = {} :=
  ⟨rfl, rfl, rfl, rfl, rfl, rfl⟩

/-- C3 (amended): for a union with more than one non-nullable member,
not all of which are keyword-primitive type references, and which is
not a union made up entirely of constants: when the owning method
symbol matches a prefix of the exception table, the engine records a
Warning and recurses into the member at the table index; when no
prefix matches, it raises an `Error` (unsupported union shape) with no
effects — it never silently picks a member. -/
theorem c3_amended_union_exception_table (cfg : Codegen) (types : List SType)
    (jsonrpcMethod : SymbolInformation) (kind : TypeRole) (u v : SType)
    (rest : List SType)
    (hconst : types.all isConstantType = false)
    (hkw : (types.filter (fun t => !isNullable t)).all isKeywordTypeRef = false)
    (hfil : types.filter (fun t => !isNullable t) = u :: v :: rest) :
    (∀ ex w, cfg.unionTypeExceptionIndex.find?
        (fun ex => strStartsWith jsonrpcMethod.symbol ex.pfx) = some ex →
      (types.filter (fun t => !isNullable t))[ex.index]? = some w →
      queueClassLikeType cfg (.union_type types) jsonrpcMethod kind =
        Delta.seq { diags := [warnDiag jsonrpcMethod.symbol
            ("resolving unsupported union by picking type " ++ toString ex.index)] }
          (queueClassLikeType cfg w jsonrpcMethod kind))
    ∧ (cfg.unionTypeExceptionIndex.find?
        (fun ex => strStartsWith jsonrpcMethod.symbol ex.pfx) = none →
      queueClassLikeType cfg (.union_type types) jsonrpcMethod kind =
        { err := some (.genericError "unsupported union type") }) := by
  have hred : queueClassLikeType cfg (.union_type types) jsonrpcMethod kind =
      match cfg.unionTypeExceptionIndex.find?
          (fun ex => strStartsWith jsonrpcMethod.symbol ex.pfx) with
      | some ex =>
          Delta.seq { diags := [warnDiag jsonrpcMethod.symbol
              ("resolving unsupported union by picking type " ++ toString ex.index)] }
            (match (u :: v :: rest)[ex.index]? with
             | some w => queueClassLikeTypeFuel cfg (SType.sizeList types)
                 w jsonrpcMethod kind
             | none => { err := some (.typeError "undefined union member") })
      | none => { err := some (.genericError "unsupported union type") } := by
    show queueClassLikeTypeFuel cfg (SType.sizeList types + 1)
        (.union_type types) jsonrpcMethod kind = _
    simp only [queueClassLikeTypeFuel, hconst, Bool.false_eq_true, if_false, hkw]
    simp only [hfil]
  constructor
  · intro ex w hfind hidx
    rw [hfil] at hidx
    rw [hred]
    simp only [hfind, hidx]
    have hw : w ∈ types := by
      have hmem : w ∈ u :: v :: rest := List.getElem?_mem hidx
      exact List.mem_of_mem_filter (hfil ▸ hmem)
    rw [queueClassLikeTypeFuel_eq cfg (SType.sizeList types) w jsonrpcMethod kind
      (by have := SType.size_lt_sizeList_of_mem hw; omega)]
  · intro hfind
    rw [hred]
    simp only [hfind]

/-- Witness for the amended C3: both branches at concrete inputs — the
table of `exceptionCfg` resolves the union `string | FileInfo | null`
for method prefix `M#` by warning and queueing `FileInfo`, and the same
union under the empty table raises the unsupported-union error. -/
theorem c3_witness :
    (queueClassLikeType exceptionCfg (.union_type [strKw, fileInfoRef, nullKw])
        { symbol := "M#m", display_name := "m" } .parameter =
      Delta.seq { diags := [warnDiag "M#m" "resolving unsupported union by picking type 1"] }
        (queueClassLikeType exceptionCfg fileInfoRef
          { symbol := "M#m", display_name := "m" } .parameter))
    ∧ (queueClassLikeType sampleCfg (.union_type [strKw, fileInfoRef, nullKw])
        { symbol := "N#m", display_name := "m" } .parameter =
      { err := some (.genericError "unsupported union type") }) := by
  constructor
  · exact (c3_amended_union_exception_table exceptionCfg [strKw, fileInfoRef, nullKw]
      { symbol := "M#m", display_name := "m" } .parameter strKw fileInfoRef []
      rfl rfl rfl).1 { pfx := "M#", index := 1 } fileInfoRef rfl rfl
  · exact (c3_amended_union_exception_table sampleCfg [strKw, fileInfoRef, nullKw]
      { symbol := "N#m", display_name := "m" } .parameter strKw fileInfoRef []
      rfl rfl rfl).2 rfl

/-- C10: a `SymbolInformation` without any signature makes
`queueClassLikeInfo` return silently — nothing queued, nothing
reported, nothing thrown; and a `TypeError` escapes exactly when a
signature is present but matches none of the recognized shapes (class
signature, string type, discriminated union, type signature) — that is,
exactly for a bare value signature. -/
theorem c10_classification_totality (cfg : Codegen) (info : SymbolInformation) :
    (info.signature = none → queueClassLikeInfo cfg info = {})
    ∧ ((∃ e, (queueClassLikeInfo cfg info).err = some e ∧ e.isTypeError = true) ↔
        (∃ t, info.signature = some (.value_signature t))) := by
  constructor
  · intro hs
    simp only [queueClassLikeInfo, hs]
  · cases hsig : info.signature with
    | none =>
        simp only [queueClassLikeInfo, hsig]
        constructor
        · rintro ⟨e, he, _⟩
          cases he
        · rintro ⟨t, ht⟩
          cases ht
    | some sig =>
        cases sig with
        | class_signature symlinks =>
            simp only [queueClassLikeInfo, hsig]
            constructor
            · rintro ⟨e, he, _⟩
              cases he
            · rintro ⟨t, ht⟩
              cases ht
        | type_signature lower_bound =>
            simp only [queueClassLikeInfo, hsig]
            constructor
            · rintro ⟨e, he, hte⟩
              by_cases hstr : isStringTypeInfo info = true
              · simp only [hstr, if_true] at he
                cases he
              · rw [Bool.not_eq_true] at hstr
                simp only [hstr, Bool.false_eq_true, if_false] at he
                cases hdu : (if cfg.isNestedDiscriminatedUnion
                    then discriminatedUnion cfg info else none) with
                | some du =>
                    simp only [hdu] at he
                    cases he
                | none =>
                    simp only [hdu] at he
                    by_cases hde : ((propertiesOf cfg.symtab lower_bound).foldl
                        (fun acc property =>
                          declInsert acc property (cfg.symtab.infos property)) []).isEmpty = true
                    · simp only [hde, if_true] at he
                      cases he
                    · rw [Bool.not_eq_true] at hde
                      simp only [hde, Bool.false_eq_true, if_false] at he
                      cases he
            · rintro ⟨t, ht⟩
              simp at ht
        | value_signature tpe =>
            simp only [queueClassLikeInfo, hsig]
            have hstr : isStringTypeInfo info = false := by
              simp [isStringTypeInfo, hsig]
            have hdu : discriminatedUnion cfg info = none := by
              simp [discriminatedUnion, hsig]
            simp only [hstr, Bool.false_eq_true, if_false, hdu]
            constructor
            · intro _
              exact ⟨tpe, rfl⟩
            · intro _
              cases hnest : cfg.isNestedDiscriminatedUnion with
              | false =>
                  simp only [hnest, Bool.false_eq_true, if_false]
                  exact ⟨.typeError "unknown info", rfl, rfl⟩
              | true =>
                  simp only [hnest, if_true, hdu]
                  exact ⟨.typeError "unknown info", rfl, rfl⟩

/-- Witness for C10: the default (signature-less) info is skipped
silently, and the bare-value-signature info raises a `TypeError`. -/
theorem c10_witness :
    queueClassLikeInfo duCfg {} = {} ∧
    (∃ e, (queueClassLikeInfo duCfg valueOnlyInfo).err = some e ∧
      e.isTypeError = true) :=
  ⟨(c10_classification_totality duCfg {}).1 rfl,
   (c10_classification_totality duCfg valueOnlyInfo).2.mpr ⟨strKw, rfl⟩⟩

/-!  Support lemmas about effect composition. -/

/-- Projections of sequential composition when the first operation did
not throw. -/
theorem Delta.seq_of_err_none {a : Delta} (b : Delta) (h : a.err = none) :
    a.seq b = { queue := a.queue ++ b.queue,
                discriminatedUnions := a.discriminatedUnions ++ b.discriminatedUnions,
                siblingProperties := a.siblingProperties ++ b.siblingProperties,
                stringLiteralConstants := a.stringLiteralConstants ++ b.stringLiteralConstants,
                diags := a.diags ++ b.diags,
                out := a.out ++ b.out,
                err := b.err } := by
  simp [Delta.seq, h]

/-- `queueClassLikeInfo` never hands anything to the emitter. -/
theorem queueClassLikeInfo_out (cfg : Codegen) (info : SymbolInformation) :
    (queueClassLikeInfo cfg info).out = [] := by
  simp only [queueClassLikeInfo]
  cases hsig : info.signature with
  | none => rfl
  | some sig =>
      cases sig with
      | class_signature symlinks => rfl
      | value_signature tpe =>
          by_cases hstr : isStringTypeInfo info = true
          · simp [hstr]
          · rw [Bool.not_eq_true] at hstr
            simp only [hstr, Bool.false_eq_true, if_false]
            cases hdu : (if cfg.isNestedDiscriminatedUnion
                then discriminatedUnion cfg info else none) <;> simp
      | type_signature lower_bound =>
          by_cases hstr : isStringTypeInfo info = true
          · simp [hstr]
          · rw [Bool.not_eq_true] at hstr
            simp only [hstr, Bool.false_eq_true, if_false]
            cases hdu : (if cfg.isNestedDiscriminatedUnion
                then discriminatedUnion cfg info else none) with
            | some du => simp
            | none =>
                simp only
                by_cases hde : ((propertiesOf cfg.symtab lower_bound).foldl
                    (fun acc property =>
                      declInsert acc property (cfg.symtab.infos property)) []).isEmpty = true
                · simp [hde]
                · rw [Bool.not_eq_true] at hde
                  simp [hde]

/-- The fueled type-queuing recursion never hands anything to the
emitter either. -/
theorem queueClassLikeTypeFuel_out (cfg : Codegen) :
    ∀ (fuel : Nat) (t : SType) (jsonrpcMethod : SymbolInformation) (kind : TypeRole),
      (queueClassLikeTypeFuel cfg fuel t jsonrpcMethod kind).out = [] := by
  intro fuel
  induction fuel with
  | zero => intro t m k; rfl
  | succ f ih =>
      intro t m k
      cases t with
      | type_ref s args =>
          simp only [queueClassLikeTypeFuel]
          by_cases harr : (s == typescriptKeyword "array") = true
          · simp only [harr, if_true]
            cases args with
            | nil => rfl
            | cons a rest => exact ih a m k
          · rw [Bool.not_eq_true] at harr
            simp only [harr, Bool.false_eq_true, if_false]
            by_cases hrec : isRecord s = true
            · simp only [hrec, if_true]
              match args with
              | [] => rfl
              | [_] => rfl
              | [a, b] =>
                  show ((queueClassLikeTypeFuel cfg f a m k).seq
                    (queueClassLikeTypeFuel cfg f b m k)).out = []
                  rw [Delta.seq]
                  split
                  · exact ih a m k
                  · simp [ih a m k, ih b m k]
              | _ :: _ :: _ :: _ => rfl
            · rw [Bool.not_eq_true] at hrec
              simp only [hrec, Bool.false_eq_true, if_false]
              by_cases hfmt : (typescriptKeywordFormat s).isSome = true
              · simp [hfmt]
              · rw [Bool.not_eq_true] at hfmt
                simp only [hfmt, Bool.false_eq_true, if_false]
                exact queueClassLikeInfo_out cfg _
      | structural_type symlinks => exact queueClassLikeInfo_out cfg _
      | intersection_type types => exact queueClassLikeInfo_out cfg _
      | union_type types =>
          simp only [queueClassLikeTypeFuel]
          by_cases hconst : types.all isConstantType = true
          · simp [hconst]
          · rw [Bool.not_eq_true] at hconst
            simp only [hconst, Bool.false_eq_true, if_false]
            by_cases hkw : (types.filter (fun u => !isNullable u)).all isKeywordTypeRef = true
            · simp [hkw]
            · rw [Bool.not_eq_true] at hkw
              simp only [hkw, Bool.false_eq_true, if_false]
              rcases hfil : types.filter (fun u => !isNullable u) with _ | ⟨u, _ | ⟨v, rest⟩⟩
              · simp only [hfil]
                cases hex : cfg.unionTypeExceptionIndex.find?
                    (fun ex => strStartsWith m.symbol ex.pfx) <;> simp [hex, Delta.seq]
              · simp only [hfil]
                exact ih u m k
              · simp only [hfil]
                cases hex : cfg.unionTypeExceptionIndex.find?
                    (fun ex => strStartsWith m.symbol ex.pfx) with
                | none => rfl
                | some ex =>
                    cases hidx : (u :: v :: rest)[ex.index]? with
                    | none => simp [hidx, Delta.seq]
                    | some w =>
                        simp only [hidx, Delta.seq]
                        split
                        · rfl
                        · simp [ih w m k]
      | constant_type v => rfl
      | lambda_type => rfl

/-- `queueClassLikeType` hands nothing to the emitter. -/
theorem queueClassLikeType_out (cfg : Codegen) (t : SType)
    (jsonrpcMethod : SymbolInformation) (kind : TypeRole) :
    (queueClassLikeType cfg t jsonrpcMethod kind).out = [] :=
  queueClassLikeTypeFuel_out cfg t.size t jsonrpcMethod kind

/-- Counterexample to C2 as stated: writing class `B` fails (its member
`bad` has no value signature, so `writeDataClassUnsafe` throws a
`TypeError`), the failure is caught and reported — and yet `writeType`
still writes the output file `B.kt` for that symbol, because the file
write at the end of `writeType` is unconditional once the info is not
ignored.  The claim's final clause (the symbol's output file is not
produced) is therefore false. -/
theorem c2_counterexample :
    (writeDataClassUnsafe badMemberCfg "B" (badMemberSymtab.infos "B#") none).err =
      some (.typeError "not a value signature") ∧
    writeType badMemberCfg [] (badMemberSymtab.infos "B#") =
      { diags := [errorDiag "B#" "Failed to handle class B#"],
        out := [.fileWrite "B.kt"] } :=
  ⟨rfl, rfl⟩

/-- C2 (amended): whenever `writeDataClassUnsafe` throws,
`writeDataClass` catches the exception, keeps every effect recorded
before the throw, records one additional `Error`-severity diagnostic
against that symbol, and returns without an escaping exception — so
generation proceeds to the next queued type; the symbol's output file,
however, is still produced by `writeType` (see `c2_counterexample`). -/
theorem c2_amended_write_failure_is_caught (cfg : Codegen) (name : String)
    (info : SymbolInformation) (parentClass : Option String) :
    ((writeDataClass cfg name info parentClass).err = none)
    ∧ ((writeDataClassUnsafe cfg name info parentClass).err.isSome = true →
        writeDataClass cfg name info parentClass =
          { writeDataClassUnsafe cfg name info parentClass with
            err := none,
            diags := (writeDataClassUnsafe cfg name info parentClass).diags ++
              [errorDiag info.symbol ("Failed to handle class " ++ info.symbol)] }) := by
  constructor
  · show (writeDataClass cfg name info parentClass).err = none
    rw [writeDataClass]
    cases h : (writeDataClassUnsafe cfg name info parentClass).err <;> simp [h]
  · intro h
    rw [writeDataClass]
    cases he : (writeDataClassUnsafe cfg name info parentClass).err with
    | none => rw [he] at h; cases h
    | some e => simp [he]

/-- Witness for the amended C2 at the malformed class `B`. -/
theorem c2_witness :
    ((writeDataClass badMemberCfg "B" (badMemberSymtab.infos "B#") none).err = none)
    ∧ (writeDataClass badMemberCfg "B" (badMemberSymtab.infos "B#") none =
        { writeDataClassUnsafe badMemberCfg "B" (badMemberSymtab.infos "B#") none with
          err := none,
          diags := (writeDataClassUnsafe badMemberCfg "B"
              (badMemberSymtab.infos "B#") none).diags ++
            [errorDiag "B#" ("Failed to handle class " ++ "B#")] }) :=
  ⟨(c2_amended_write_failure_is_caught badMemberCfg "B"
      (badMemberSymtab.infos "B#") none).1,
   by
    have h2 := (c2_amended_write_failure_is_caught badMemberCfg "B"
      (badMemberSymtab.infos "B#") none).2 rfl
    simpa using h2⟩

/-- `writeDataClass` never lets an exception escape (it catches and
reports instead). -/
theorem writeDataClass_err_none (cfg : Codegen) (name : String)
    (info : SymbolInformation) (parentClass : Option String) :
    (writeDataClass cfg name info parentClass).err = none := by
  rw [writeDataClass]
  cases h : (writeDataClassUnsafe cfg name info parentClass).err <;> simp [h]

/-- Neither does the per-member sealed-class write. -/
theorem writeSealedMember_err_none (cfg : Codegen) (name : String)
    (union2 : DiscriminatedUnion) (member : DiscriminatedUnionMember) :
    (writeSealedMember cfg name union2 member).err = none :=
  writeDataClass_err_none cfg _ _ _

/-- Folding non-throwing writes concatenates their effects. -/
theorem foldl_seq_spec (W : DiscriminatedUnionMember → Delta)
    (hW : ∀ m, (W m).err = none) :
    ∀ (ms : List DiscriminatedUnionMember) (d : Delta), d.err = none →
      (ms.foldl (fun d m => d.seq (W m)) d) =
        { queue := d.queue ++ ms.flatMap (fun m => (W m).queue),
          discriminatedUnions := d.discriminatedUnions ++
            ms.flatMap (fun m => (W m).discriminatedUnions),
          siblingProperties := d.siblingProperties ++
            ms.flatMap (fun m => (W m).siblingProperties),
          stringLiteralConstants := d.stringLiteralConstants ++
            ms.flatMap (fun m => (W m).stringLiteralConstants),
          diags := d.diags ++ ms.flatMap (fun m => (W m).diags),
          out := d.out ++ ms.flatMap (fun m => (W m).out),
          err := none } := by
  intro ms
  induction ms with
  | nil =>
      intro d hd
      cases d
      simp_all
  | cons m ms ih =>
      intro d hd
      simp only [List.foldl_cons]
      rw [ih (d.seq (W m)) (by rw [Delta.seq_of_err_none _ hd]; exact hW m)]
      rw [Delta.seq_of_err_none _ hd]
      simp

/-- Properties of the discriminator-value deduplication loop, for any
initial handled set: kept plus dropped account for all members; every
drop produced a Warning against the union symbol; every kept member is
the first occurrence of its (un-handled) value; and each un-handled
value present among the members is kept exactly once. -/
theorem dedupUnionMembers_spec (symbol : String) :
    ∀ (ms : List DiscriminatedUnionMember) (handled : List String),
      ((dedupUnionMembers symbol ms handled).1.length +
        (dedupUnionMembers symbol ms handled).2.length = ms.length)
      ∧ (∀ d ∈ (dedupUnionMembers symbol ms handled).2,
          d.severity = .warning ∧ d.symbol = symbol)
      ∧ (∀ m ∈ (dedupUnionMembers symbol ms handled).1,
          handled.contains m.value = false ∧
          ms.find? (fun x => x.value == m.value) = some m)
      ∧ (∀ v : String,
          (dedupUnionMembers symbol ms handled).1.countP (fun m => m.value == v) =
            if handled.contains v = false ∧ ms.any (fun m => m.value == v) = true
            then 1 else 0) := by
  intro ms
  induction ms with
  | nil =>
      intro handled
      refine ⟨rfl, ?_, ?_, ?_⟩
      · intro d hd; cases hd
      · intro m hm; cases hm
      · intro v; simp [dedupUnionMembers]
  | cons m ms ih =>
      intro handled
      by_cases hc : handled.contains m.value = true
      · have hred : dedupUnionMembers symbol (m :: ms) handled =
            ((dedupUnionMembers symbol ms handled).1,
             warnDiag symbol ("duplicate discriminator value " ++ m.value) ::
               (dedupUnionMembers symbol ms handled).2) := by
          simp only [dedupUnionMembers, hc, if_true]
        obtain ⟨ihlen, ihwarn, ihfirst, ihcount⟩ := ih handled
        rw [hred]
        refine ⟨by simp [ihlen]; omega, ?_, ?_, ?_⟩
        · intro d hd
          rcases List.mem_cons.mp hd with rfl | hd2
          · exact ⟨rfl, rfl⟩
          · exact ihwarn d hd2
        · intro mb hmb
          obtain ⟨hmb1, hmb2⟩ := ihfirst mb hmb
          have hne : (m.value == mb.value) = false := by
            rw [beq_eq_false_iff_ne]
            intro he
            rw [← he] at hmb1
            rw [hc] at hmb1
            cases hmb1
          refine ⟨hmb1, ?_⟩
          rw [List.find?_cons]
          simp only [hne]
          exact hmb2
        · intro v
          rw [ihcount v]
          by_cases hv : handled.contains v = false
          · have hmv : (m.value == v) = false := by
              rw [beq_eq_false_iff_ne]
              intro he
              rw [he] at hc
              rw [hc] at hv
              cases hv
            simp [hv, hmv]
          · simp at hv
            simp [hv]
      · rw [Bool.not_eq_true] at hc
        have hred : dedupUnionMembers symbol (m :: ms) handled =
            (m :: (dedupUnionMembers symbol ms (handled ++ [m.value])).1,
             (dedupUnionMembers symbol ms (handled ++ [m.value])).2) := by
          simp only [dedupUnionMembers, hc, Bool.false_eq_true, if_false]
        obtain ⟨ihlen, ihwarn, ihfirst, ihcount⟩ := ih (handled ++ [m.value])
        rw [hred]
        have hcontains : ∀ w : String,
            ((handled ++ [m.value]).contains w) =
              (handled.contains w || w == m.value) := by
          intro w
          simp only [List.contains, List.elem_iff, beq_iff_eq]
          simp [List.mem_append]
          rfl
        refine ⟨by simp [← ihlen]; omega, ihwarn, ?_, ?_⟩
        · intro mb hmb
          rcases List.mem_cons.mp hmb with rfl | hmb2
          · refine ⟨hc, ?_⟩
            rw [List.find?_cons]
            simp
          · obtain ⟨hmb1, hmb2'⟩ := ihfirst mb hmb2
            rw [hcontains mb.value] at hmb1
            have h1 : handled.contains mb.value = false := by
              cases h2 : handled.contains mb.value
              · rfl
              · rw [h2] at hmb1; simp at hmb1
            have h2 : (mb.value == m.value) = false := by
              cases h3 : mb.value == m.value
              · rfl
              · rw [h3] at hmb1; simp at hmb1
            refine ⟨h1, ?_⟩
            rw [List.find?_cons]
            have h4 : (m.value == mb.value) = false := by
              rw [beq_eq_false_iff_ne]
              intro he
              rw [beq_eq_false_iff_ne] at h2
              exact h2 he.symm
            simp only [h4]
            exact hmb2'
        · intro v
          rw [List.countP_cons]
          rw [ihcount v]
          rw [hcontains v]
          by_cases hveq : v = m.value
          · subst hveq
            have hc2 : m.value ∉ handled := by
              intro hmem
              have h3 : handled.contains m.value = true := List.elem_iff.mpr hmem
              rw [h3] at hc
              simp at hc
            simp [hc, hc2]
          · have hbeq : (m.value == v) = false := by
              rw [beq_eq_false_iff_ne]; exact fun he => hveq he.symm
            have hbeq2 : (v == m.value) = false := by
              rw [beq_eq_false_iff_ne]; exact hveq
            simp only [hbeq, hbeq2, Bool.or_false, List.any_cons]
            by_cases hv : handled.contains v = false
            · simp [hv]
            · simp at hv
              simp [hv]

/-- Emitted outputs of sequential composition. -/
theorem Delta.seq_out (a b : Delta) :
    (a.seq b).out = if a.err.isSome then a.out else a.out ++ b.out := by
  rw [Delta.seq]
  split <;> rfl

/-- Escaping exception of sequential composition. -/
theorem Delta.seq_err (a b : Delta) :
    (a.seq b).err = if a.err.isSome then a.err else b.err := by
  rw [Delta.seq]
  split <;> rfl

/-- The member loop of the data-class writer hands nothing to the
emitter by itself (the class payload is emitted afterwards). -/
theorem writeDataClassMembers_out (cfg : Codegen) :
    ∀ (ms : List String) (acc : DCAcc),
      (writeDataClassMembers cfg acc ms).delta.out = acc.delta.out := by
  intro ms
  induction ms with
  | nil => intro acc; rfl
  | cons s rest ih =>
      intro acc
      simp only [writeDataClassMembers]
      by_cases h1 : cfg.ignoredProperties.any (fun ip => containsSubstring s ip) = true
      · simp only [h1, if_true]
        exact ih acc
      · rw [Bool.not_eq_true] at h1
        simp only [h1, Bool.false_eq_true, if_false]
        by_cases h2 : strEndsWith s "()." = true
        · simp only [h2, if_true]
          exact ih acc
        · rw [Bool.not_eq_true] at h2
          simp only [h2, Bool.false_eq_true, if_false]
          by_cases h3 : acc.generatedName.contains (cfg.symtab.infos s).display_name = true
          · simp only [h3, if_true]
            exact ih acc
          · rw [Bool.not_eq_true] at h3
            simp only [h3, Bool.false_eq_true, if_false]
            cases hsig : (cfg.symtab.infos s).signature with
            | none => simp [Delta.seq_out]
            | some sig =>
                cases sig with
                | class_signature symlinks => simp [Delta.seq_out]
                | type_signature lower_bound => simp [Delta.seq_out]
                | value_signature tpe =>
                    by_cases hl : isLambdaType tpe = true
                    · simp only [hl, if_true]
                      rw [ih]
                      simp [Delta.seq_out]
                    · rw [Bool.not_eq_true] at hl
                      simp only [hl, Bool.false_eq_true, if_false]
                      by_cases hig : cfg.isIgnoredType tpe = true
                      · simp only [hig, if_true]
                        exact ih _
                      · rw [Bool.not_eq_true] at hig
                        simp only [hig, Bool.false_eq_true, if_false]
                        by_cases hen : (!(stringConstantsFromInfo
                              (cfg.symtab.infos s)).isEmpty &&
                            strStartsWith (jsonrpcTypeName cfg.symtab
                              (cfg.symtab.infos s) tpe .parameter) "String") = true
                        · simp only [hen, if_true]
                          rw [ih]
                          simp [Delta.seq_out]
                        · rw [Bool.not_eq_true] at hen
                          simp only [hen, Bool.false_eq_true, if_false]
                          cases hqe : (queueClassLikeType cfg tpe
                              (cfg.symtab.infos s) .parameter).err with
                          | some e =>
                              simp only [hqe]
                              rw [ih]
                              simp [Delta.seq_out, queueClassLikeType_out]
                          | none =>
                              simp only [hqe]
                              rw [ih]
                              simp [Delta.seq_out, queueClassLikeType_out]

/-- When the data-class writer does not throw, its emitter output is a
single data class with the given name and parent. -/
theorem writeDataClassUnsafe_out_of_err_none (cfg : Codegen) (name : String)
    (info : SymbolInformation) (parentClass : Option String)
    (h : (writeDataClassUnsafe cfg name info parentClass).err = none) :
    ∃ mems enums, (writeDataClassUnsafe cfg name info parentClass).out =
      [.dataClass name parentClass mems enums] := by
  rw [writeDataClassUnsafe] at h ⊢
  set acc := writeDataClassMembers cfg
      { generatedName := [], enums := [], members := [],
        delta := if info.kindIsClass then
          { diags := [warnDiag info.symbol
              "classes should not be exposed in the agent protocol because they do not serialize to JSON"] }
        else {} } (infoProperties cfg.symtab info) with hacc
  cases he : acc.delta.err with
  | some e =>
      rw [Delta.seq_err] at h
      rw [he] at h
      simp at h
  | none =>
      refine ⟨acc.members, acc.enums, ?_⟩
      rw [Delta.seq_out, he]
      simp only [Option.isSome_none, Bool.false_eq_true, if_false]
      have hout : acc.delta.out = [] := by
        rw [hacc, writeDataClassMembers_out]
        cases hk : info.kindIsClass <;> simp [hk]
      rw [hout]
      simp

/-- The caught data-class write emits the same single data class when
the unsafe writer succeeded. -/
theorem writeDataClass_out_of_err_none (cfg : Codegen) (name : String)
    (info : SymbolInformation) (parentClass : Option String)
    (h : (writeDataClassUnsafe cfg name info parentClass).err = none) :
    ∃ mems enums, (writeDataClass cfg name info parentClass).out =
      [.dataClass name parentClass mems enums] := by
  rw [writeDataClass]
  rw [h]
  exact writeDataClassUnsafe_out_of_err_none cfg name info parentClass h

/-- C5: `writeSealedClass` keeps only the first member for each
discriminator value (every kept member is the first occurrence of its
value, and each value present among the members survives exactly once),
records one Warning — not an Error — against the union symbol for every
dropped duplicate, and, whenever every surviving inner write succeeds,
emits exactly one inner data class per surviving member. -/
theorem c5_sealed_class_dedup (cfg : Codegen) (name : String)
    (info : SymbolInformation) (union : DiscriminatedUnion)
    (hsucc : ∀ m ∈ (dedupUnionMembers info.symbol union.members []).1,
      (writeDataClassUnsafe cfg
        (discriminatedUnionTypeName cfg.symtab (sealedUnion info union) m)
        (sealedMemberInfo cfg (sealedUnion info union) m)
        (some name)).err = none) :
    (∀ m ∈ (dedupUnionMembers info.symbol union.members []).1,
      union.members.find? (fun x => x.value == m.value) = some m)
    ∧ (∀ v : String,
        (dedupUnionMembers info.symbol union.members []).1.countP
            (fun m => m.value == v) =
          if (union.members.any (fun m => m.value == v)) = true then 1 else 0)
    ∧ ((dedupUnionMembers info.symbol union.members []).1.length +
        (dedupUnionMembers info.symbol union.members []).2.length =
        union.members.length)
    ∧ (∀ d ∈ (dedupUnionMembers info.symbol union.members []).2,
        d.severity = .warning ∧ d.symbol = info.symbol)
    ∧ ((writeSealedClass cfg name info union).diags =
        (dedupUnionMembers info.symbol union.members []).2 ++
          (dedupUnionMembers info.symbol union.members []).1.flatMap
            (fun m => (writeSealedMember cfg name (sealedUnion info union) m).diags))
    ∧ ((writeSealedClass cfg name info union).out.countP Emitted.isDataClass =
        (dedupUnionMembers info.symbol union.members []).1.length) := by
  obtain ⟨hlen, hwarn, hfirst, hcount⟩ :=
    dedupUnionMembers_spec info.symbol union.members []
  have hfold := foldl_seq_spec (writeSealedMember cfg name (sealedUnion info union))
    (writeSealedMember_err_none cfg name (sealedUnion info union))
    (dedupUnionMembers info.symbol union.members []).1
    { diags := (dedupUnionMembers info.symbol union.members []).2,
      out := [.sealedClassStart name] } rfl
  have hsealed : writeSealedClass cfg name info union =
      Delta.seq
        ((dedupUnionMembers info.symbol union.members []).1.foldl
          (fun d member => d.seq (writeSealedMember cfg name (sealedUnion info union) member))
          { diags := (dedupUnionMembers info.symbol union.members []).2,
            out := [.sealedClassStart name] })
        { out := [.sealedClassClose name] } := by
    rw [writeSealedClass]
    rfl
  refine ⟨fun m hm => (hfirst m hm).2, ?_, hlen, hwarn, ?_, ?_⟩
  · intro v
    have := hcount v
    simpa using this
  · rw [hsealed, hfold]
    rw [Delta.seq_of_err_none _ rfl]
    simp
  · rw [hsealed, hfold]
    rw [Delta.seq_of_err_none _ rfl]
    simp only [List.countP_append]
    have h0 : List.countP Emitted.isDataClass [Emitted.sealedClassStart name] = 0 := rfl
    have h1 : List.countP Emitted.isDataClass [Emitted.sealedClassClose name] = 0 := rfl
    have hmain : ∀ (l : List DiscriminatedUnionMember),
        (∀ m ∈ l, (writeDataClassUnsafe cfg
          (discriminatedUnionTypeName cfg.symtab (sealedUnion info union) m)
          (sealedMemberInfo cfg (sealedUnion info union) m)
          (some name)).err = none) →
        (l.flatMap (fun m =>
          (writeSealedMember cfg name (sealedUnion info union) m).out)).countP
            Emitted.isDataClass = l.length := by
      intro l
      induction l with
      | nil => intro _; rfl
      | cons m l ihl =>
          intro hl
          obtain ⟨mems, enums, hout⟩ := writeDataClass_out_of_err_none cfg
            (discriminatedUnionTypeName cfg.symtab (sealedUnion info union) m)
            (sealedMemberInfo cfg (sealedUnion info union) m)
            (some name) (hl m (List.mem_cons_self m l))
          simp only [List.flatMap_cons, List.countP_append]
          rw [ihl (fun x hx => hl x (List.mem_cons_of_mem m hx))]
          have : (writeSealedMember cfg name (sealedUnion info union) m).out =
              [.dataClass (discriminatedUnionTypeName cfg.symtab (sealedUnion info union) m)
                (some name) mems enums] := hout
          rw [this]
          simp [Emitted.isDataClass, List.length_cons]
          omega
    rw [h0, h1, hmain _ hsucc]
    omega

/-- Witness for C5 at a union with a duplicated discriminator value:
one member is dropped (two kept out of three), and exactly two inner
data classes are emitted. -/
theorem c5_witness :
    ((dedupUnionMembers sInfo.symbol sealedTestUnion.members []).1.length +
      (dedupUnionMembers sInfo.symbol sealedTestUnion.members []).2.length =
      sealedTestUnion.members.length)
    ∧ ((writeSealedClass sampleCfg "S" sInfo sealedTestUnion).out.countP
          Emitted.isDataClass =
        (dedupUnionMembers sInfo.symbol sealedTestUnion.members []).1.length) :=
  ⟨(c5_sealed_class_dedup sampleCfg "S" sInfo sealedTestUnion (by decide)).2.2.1,
   (c5_sealed_class_dedup sampleCfg "S" sInfo sealedTestUnion (by decide)).2.2.2.2.2⟩

/-- The kept member symbols carry pairwise distinct display names, none
of them already seen. -/
theorem firstByDisplayName_nodup (symtab : SymbolTable) :
    ∀ (ms : List String) (seen : List String),
      (∀ s ∈ firstByDisplayName symtab seen ms,
        (symtab.infos s).display_name ∉ seen)
      ∧ ((firstByDisplayName symtab seen ms).map
          (fun s => (symtab.infos s).display_name)).Nodup := by
  intro ms
  induction ms with
  | nil =>
      intro seen
      exact ⟨fun s hs => absurd hs (List.not_mem_nil s), List.nodup_nil⟩
  | cons s rest ih =>
      intro seen
      by_cases hc : seen.contains (symtab.infos s).display_name = true
      · have hred : firstByDisplayName symtab seen (s :: rest) =
            firstByDisplayName symtab seen rest := by
          simp only [firstByDisplayName, hc, if_true]
        rw [hred]
        exact ih seen
      · rw [Bool.not_eq_true] at hc
        have hred : firstByDisplayName symtab seen (s :: rest) =
            s :: firstByDisplayName symtab
              (seen ++ [(symtab.infos s).display_name]) rest := by
          simp only [firstByDisplayName, hc, Bool.false_eq_true, if_false]
        rw [hred]
        obtain ⟨ihseen, ihnodup⟩ := ih (seen ++ [(symtab.infos s).display_name])
        have hs_not : (symtab.infos s).display_name ∉ seen := by
          intro hmem
          have h3 : seen.contains (symtab.infos s).display_name = true :=
            List.elem_iff.mpr hmem
          rw [h3] at hc
          simp at hc
        constructor
        · intro x hx
          rcases List.mem_cons.mp hx with rfl | hx2
          · exact hs_not
          · intro hmem
            exact ihseen x hx2 (List.mem_append_left _ hmem)
        · rw [List.map_cons, List.nodup_cons]
          refine ⟨?_, ihnodup⟩
          intro hmem
          rcases List.mem_map.mp hmem with ⟨y, hy, hyeq⟩
          exact ihseen y hy (List.mem_append_right _ (by simp [hyeq]))

/-- The member loop on clean members: it throws nothing, reports
nothing, emits nothing, synthesizes no enums, and records exactly one
field per first occurrence of a display name, in declaration order. -/
theorem writeDataClassMembers_clean (cfg : Codegen) :
    ∀ (ms : List String), (∀ s ∈ ms, CleanMember cfg s) →
    ∀ (acc : DCAcc), acc.delta.err = none →
      (writeDataClassMembers cfg acc ms).delta.err = none ∧
      (writeDataClassMembers cfg acc ms).delta.diags = acc.delta.diags ∧
      (writeDataClassMembers cfg acc ms).delta.out = acc.delta.out ∧
      (writeDataClassMembers cfg acc ms).enums = acc.enums ∧
      (writeDataClassMembers cfg acc ms).members = acc.members ++
        (firstByDisplayName cfg.symtab acc.generatedName ms).map (dataClassField cfg) := by
  intro ms
  induction ms with
  | nil =>
      intro _ acc hacc
      exact ⟨hacc, rfl, rfl, rfl, by simp [writeDataClassMembers, firstByDisplayName]⟩
  | cons s rest ih =>
      intro hms acc hacc
      obtain ⟨hign, hmeth, tpe, hsig, hlam, higt, hconsts, hqerr, hqdiags⟩ :=
        hms s (List.mem_cons_self s rest)
      have hrest : ∀ x ∈ rest, CleanMember cfg x :=
        fun x hx => hms x (List.mem_cons_of_mem s hx)
      simp only [writeDataClassMembers, hign, Bool.false_eq_true, if_false,
        hmeth, hsig]
      by_cases hdup : acc.generatedName.contains (cfg.symtab.infos s).display_name = true
      · simp only [hdup, if_true]
        have hred : firstByDisplayName cfg.symtab acc.generatedName (s :: rest) =
            firstByDisplayName cfg.symtab acc.generatedName rest := by
          simp only [firstByDisplayName, hdup, if_true]
        rw [hred]
        exact ih hrest acc hacc
      · rw [Bool.not_eq_true] at hdup
        have hdup2 : (cfg.symtab.infos s).display_name ∉ acc.generatedName := by
          intro hmem
          have h3 : acc.generatedName.contains (cfg.symtab.infos s).display_name = true :=
            List.elem_iff.mpr hmem
          rw [h3] at hdup
          simp at hdup
        simp only [hdup, Bool.false_eq_true, if_false]
        simp only [hlam, Bool.false_eq_true, if_false, higt, hconsts]
        simp only [List.isEmpty_nil, Bool.not_true, Bool.false_and,
          Bool.false_eq_true, if_false, if_true]
        simp only [hqerr]
        have hred : firstByDisplayName cfg.symtab acc.generatedName (s :: rest) =
            s :: firstByDisplayName cfg.symtab
              (acc.generatedName ++ [(cfg.symtab.infos s).display_name]) rest := by
          simp only [firstByDisplayName]
          rw [if_neg (by simp [hdup2])]
        rw [hred]
        have hinner : (acc.delta.seq ({ stringLiteralConstants := [] } : Delta)).err = none := by
          rw [Delta.seq_err]
          simp [hacc]
        have herr3 : ((acc.delta.seq ({ stringLiteralConstants := [] } : Delta)).seq
            (queueClassLikeType cfg tpe (cfg.symtab.infos s) .parameter)).err = none := by
          rw [Delta.seq_err]
          simp [hinner, hqerr]
        refine ⟨(ih hrest _ (by exact herr3)).1, ?_, ?_, ?_, ?_⟩
        · rw [(ih hrest _ (by exact herr3)).2.1]
          show ((acc.delta.seq ({ stringLiteralConstants := [] } : Delta)).seq
            (queueClassLikeType cfg tpe (cfg.symtab.infos s) .parameter)).diags =
              acc.delta.diags
          rw [Delta.seq_of_err_none _ hinner, Delta.seq_of_err_none _ hacc]
          simp [hqdiags]
        · rw [(ih hrest _ (by exact herr3)).2.2.1]
          show ((acc.delta.seq ({ stringLiteralConstants := [] } : Delta)).seq
            (queueClassLikeType cfg tpe (cfg.symtab.infos s) .parameter)).out =
              acc.delta.out
          rw [Delta.seq_of_err_none _ hinner, Delta.seq_of_err_none _ hacc]
          simp [queueClassLikeType_out]
        · rw [(ih hrest _ (by exact herr3)).2.2.2.1]
        · rw [(ih hrest _ (by exact herr3)).2.2.2.2]
          simp only [List.map_cons, List.cons_append, List.nil_append]
          rw [List.append_assoc]
          congr 2
          simp [dataClassField, valueSignatureTpe, hsig]

/-- Counterexample to C9 as stated: class `X` declares two members with
display name `x`; the first is method-shaped (symbol ends in `().`) and
is skipped before its display name is registered, so the dedup check
never sees the name and `writeDataClassUnsafe` emits a field for the
second member — not only for the first member with that display name in
declaration order, as the claim requires. -/
theorem c9_counterexample :
    infoProperties dupNameCfg.symtab (dupNameSymtab.infos "X#") =
      ["X#x().", "X#x."] ∧
    (dupNameSymtab.infos "X#x().").display_name = "x" ∧
    (dupNameSymtab.infos "X#x.").display_name = "x" ∧
    writeDataClassUnsafe dupNameCfg "X" (dupNameSymtab.infos "X#") none =
      { out := [.dataClass "X" none
          [{ info := dupNameSymtab.infos "X#x.",
             typeText := "String", formattedName := "x", oneOfComment := "",
             isNullable := false }] []] } :=
  ⟨rfl, rfl, rfl, rfl⟩

/-- C9 (amended): for a non-`Class`-kind info all of whose members pass
the ignore/method pre-checks and are well formed, the data-class writer
emits one field per first occurrence of a display name among the
members that reach the dedup check, in declaration order — later
members with an already-generated display name are skipped silently,
with no diagnostic of any severity, and the emitted field names are
pairwise distinct. -/
theorem c9_amended_first_display_name_wins (cfg : Codegen) (name : String)
    (info : SymbolInformation) (parentClass : Option String)
    (hkind : info.kindIsClass = false)
    (hclean : ∀ s ∈ infoProperties cfg.symtab info, CleanMember cfg s) :
    (writeDataClassUnsafe cfg name info parentClass).err = none
    ∧ (writeDataClassUnsafe cfg name info parentClass).diags = []
    ∧ (writeDataClassUnsafe cfg name info parentClass).out =
        [.dataClass name parentClass
          ((firstByDisplayName cfg.symtab [] (infoProperties cfg.symtab info)).map
            (dataClassField cfg)) []]
    ∧ ((firstByDisplayName cfg.symtab [] (infoProperties cfg.symtab info)).map
        (fun s => (cfg.symtab.infos s).display_name)).Nodup := by
  obtain ⟨herr, hdiags, hout, henums, hmembers⟩ :=
    writeDataClassMembers_clean cfg (infoProperties cfg.symtab info) hclean
      { generatedName := [], enums := [], members := [], delta := {} } rfl
  have hun : writeDataClassUnsafe cfg name info parentClass =
      (writeDataClassMembers cfg
        { generatedName := [], enums := [], members := [], delta := {} }
        (infoProperties cfg.symtab info)).delta.seq
        { out := [.dataClass name parentClass
            (writeDataClassMembers cfg
              { generatedName := [], enums := [], members := [], delta := {} }
              (infoProperties cfg.symtab info)).members
            (writeDataClassMembers cfg
              { generatedName := [], enums := [], members := [], delta := {} }
              (infoProperties cfg.symtab info)).enums] } := by
    rw [writeDataClassUnsafe, hkind]
    simp only [Bool.false_eq_true, if_false]
  refine ⟨?_, ?_, ?_, (firstByDisplayName_nodup cfg.symtab _ []).2⟩
  · rw [hun, Delta.seq_err, herr]
    simp
  · rw [hun, Delta.seq_of_err_none _ herr]
    simp [hdiags]
  · rw [hun, Delta.seq_of_err_none _ herr]
    simp only [hout, hmembers, henums]
    simp

/-- Witness for the amended C9 at class `W` (members named x, y, x): no
throw, no diagnostic, one field each for the first x and for y, with
distinct field names. -/
theorem c9_witness :
    (writeDataClassUnsafe w9Cfg "W" (w9Symtab.infos "W#") none).err = none
    ∧ (writeDataClassUnsafe w9Cfg "W" (w9Symtab.infos "W#") none).diags = []
    ∧ (writeDataClassUnsafe w9Cfg "W" (w9Symtab.infos "W#") none).out =
        [.dataClass "W" none
          ((firstByDisplayName w9Cfg.symtab []
            (infoProperties w9Cfg.symtab (w9Symtab.infos "W#"))).map
            (dataClassField w9Cfg)) []]
    ∧ ((firstByDisplayName w9Cfg.symtab []
        (infoProperties w9Cfg.symtab (w9Symtab.infos "W#"))).map
        (fun s => (w9Cfg.symtab.infos s).display_name)).Nodup :=
  c9_amended_first_display_name_wins w9Cfg "W" (w9Symtab.infos "W#") none rfl
    (by
      intro s hs
      simp only [infoProperties, w9Symtab] at hs
      simp at hs
      rcases hs with rfl | rfl | rfl
      · exact ⟨rfl, rfl, strKw, rfl, rfl, rfl, rfl, rfl, rfl⟩
      · exact ⟨rfl, rfl, strKw, rfl, rfl, rfl, rfl, rfl, rfl⟩
      · exact ⟨rfl, rfl, strKw, rfl, rfl, rfl, rfl, rfl, rfl⟩)

/-- Bumping a name increments exactly the count of that name. -/
theorem bumpCount_lookup (k d : String) :
    ∀ l : List (String × Nat),
      lookupCount (bumpCount l k) d =
        lookupCount l d + (if k = d then 1 else 0) := by
  intro l
  induction l with
  | nil =>
      by_cases hkd : k = d
      · subst hkd
        simp [bumpCount, lookupCount]
      · have hb : (k == d) = false := by
          rw [beq_eq_false_iff_ne]; exact hkd
        simp [bumpCount, lookupCount, List.find?_cons, hb, hkd]
  | cons kv rest ih =>
      obtain ⟨k1, c1⟩ := kv
      by_cases hk : k1 = k
      · subst hk
        have hred : bumpCount ((k1, c1) :: rest) k1 = (k1, c1 + 1) :: rest := by
          simp [bumpCount]
        rw [hred]
        by_cases hd : k1 = d
        · subst hd
          simp [lookupCount, List.find?_cons]
        · have hbd : (k1 == d) = false := by
            rw [beq_eq_false_iff_ne]; exact hd
          simp [lookupCount, List.find?_cons, hbd, hd]
      · have hb : (k1 == k) = false := by
          rw [beq_eq_false_iff_ne]; exact hk
        have hred : bumpCount ((k1, c1) :: rest) k = (k1, c1) :: bumpCount rest k := by
          simp [bumpCount, hb]
        rw [hred]
        by_cases hd : k1 = d
        · subst hd
          have hkd : ¬ k = k1 := fun he => hk he.symm
          simp [lookupCount, List.find?_cons, hkd]
        · have hbd : (k1 == d) = false := by
            rw [beq_eq_false_iff_ne]; exact hd
          simp only [lookupCount, List.find?_cons, hbd]
          exact ih

/-- Appending a member extends exactly the member list of that name by one. -/
theorem addDUMember_lookup_len (k d : String) (mem : DiscriminatedUnionMember) :
    ∀ l : List (String × List DiscriminatedUnionMember),
      (lookupMembers (addDUMember l k mem) d).length =
        (lookupMembers l d).length + (if k = d then 1 else 0) := by
  intro l
  induction l with
  | nil =>
      by_cases hkd : k = d
      · subst hkd
        simp [addDUMember, lookupMembers]
      · have hb : (k == d) = false := by
          rw [beq_eq_false_iff_ne]; exact hkd
        simp [addDUMember, lookupMembers, List.find?_cons, hb, hkd]
  | cons kv rest ih =>
      obtain ⟨k1, ms1⟩ := kv
      by_cases hk : k1 = k
      · subst hk
        have hred : addDUMember ((k1, ms1) :: rest) k1 mem =
            (k1, ms1 ++ [mem]) :: rest := by
          simp [addDUMember]
        rw [hred]
        by_cases hd : k1 = d
        · subst hd
          simp [lookupMembers, List.find?_cons]
        · have hbd : (k1 == d) = false := by
            rw [beq_eq_false_iff_ne]; exact hd
          simp [lookupMembers, List.find?_cons, hbd, hd]
      · have hb : (k1 == k) = false := by
          rw [beq_eq_false_iff_ne]; exact hk
        have hred : addDUMember ((k1, ms1) :: rest) k mem =
            (k1, ms1) :: addDUMember rest k mem := by
          simp [addDUMember, hb]
        rw [hred]
        by_cases hd : k1 = d
        · subst hd
          have hkd : ¬ k = k1 := fun he => hk he.symm
          simp [lookupMembers, List.find?_cons, hkd]
        · have hbd : (k1 == d) = false := by
            rw [beq_eq_false_iff_ne]; exact hd
          simp only [lookupMembers, List.find?_cons, hbd]
          exact ih

/-- Bumping a name keeps the key list, or appends the new name when it
was absent. -/
theorem bumpCount_keys (k : String) :
    ∀ l : List (String × Nat),
      (bumpCount l k).map Prod.fst =
        if k ∈ l.map Prod.fst then l.map Prod.fst else l.map Prod.fst ++ [k] := by
  intro l
  induction l with
  | nil => simp [bumpCount]
  | cons kv rest ih =>
      obtain ⟨k1, c1⟩ := kv
      by_cases hk : k1 = k
      · subst hk
        have hred : bumpCount ((k1, c1) :: rest) k1 = (k1, c1 + 1) :: rest := by
          simp [bumpCount]
        rw [hred]
        simp
      · have hb : (k1 == k) = false := by
          rw [beq_eq_false_iff_ne]; exact hk
        have hred : bumpCount ((k1, c1) :: rest) k = (k1, c1) :: bumpCount rest k := by
          simp [bumpCount, hb]
        rw [hred]
        simp only [List.map_cons, ih]
        by_cases hmem : k ∈ rest.map Prod.fst
        · simp [hmem, hk]
        · have hne : ¬ k = k1 := fun he => hk he.symm
          simp [hmem, List.mem_cons, hne]

/-- Folding candidate updates adds, for each name, the number of
processed entries carrying that name. -/
theorem foldPairs_count (d : String) :
    ∀ (es : List (String × DiscriminatedUnionMember))
      (acc : List (String × Nat) × List (String × List DiscriminatedUnionMember)),
      lookupCount (es.foldl duPairStep acc).1 d =
        lookupCount acc.1 d + es.countP (fun e => e.1 == d) := by
  intro es
  induction es with
  | nil => intro acc; simp
  | cons e rest ih =>
      intro acc
      simp only [List.foldl_cons, List.countP_cons]
      rw [ih]
      show lookupCount (bumpCount acc.1 e.1) d + _ = _
      rw [bumpCount_lookup]
      by_cases he : e.1 = d
      · have hb : (e.1 == d) = true := by simp [he]
        simp [he, hb]
        omega
      · have hb : (e.1 == d) = false := by
          rw [beq_eq_false_iff_ne]; exact he
        simp [he, hb]

/-- Folding member updates collects, for each name, one member per
processed entry carrying that name. -/
theorem foldPairs_members_len (d : String) :
    ∀ (es : List (String × DiscriminatedUnionMember))
      (acc : List (String × Nat) × List (String × List DiscriminatedUnionMember)),
      (lookupMembers (es.foldl duPairStep acc).2 d).length =
        (lookupMembers acc.2 d).length + es.countP (fun e => e.1 == d) := by
  intro es
  induction es with
  | nil => intro acc; simp
  | cons e rest ih =>
      intro acc
      simp only [List.foldl_cons, List.countP_cons]
      rw [ih]
      show (lookupMembers (addDUMember acc.2 e.1 e.2) d).length + _ = _
      rw [addDUMember_lookup_len]
      by_cases he : e.1 = d
      · have hb : (e.1 == d) = true := by simp [he]
        simp [he, hb]
        omega
      · have hb : (e.1 == d) = false := by
          rw [beq_eq_false_iff_ne]; exact he
        simp [he, hb]

/-- Folding candidate updates preserves distinctness of the keys. -/
theorem foldPairs_keys_nodup :
    ∀ (es : List (String × DiscriminatedUnionMember))
      (acc : List (String × Nat) × List (String × List DiscriminatedUnionMember)),
      (acc.1.map Prod.fst).Nodup → ((es.foldl duPairStep acc).1.map Prod.fst).Nodup := by
  intro es
  induction es with
  | nil => intro acc h; simpa using h
  | cons e rest ih =>
      intro acc h
      simp only [List.foldl_cons]
      apply ih
      show ((bumpCount acc.1 e.1).map Prod.fst).Nodup
      rw [bumpCount_keys]
      by_cases hmem : e.1 ∈ acc.1.map Prod.fst
      · simpa [hmem] using h
      · simp only [hmem, if_false]
        simp [List.nodup_append, h, hmem]

/-- In an association list with distinct keys, every entry agrees with
the first-match lookup of its key. -/
theorem assoc_self_lookup :
    ∀ (l : List (String × Nat)), (l.map Prod.fst).Nodup →
      ∀ kv ∈ l, lookupCount l kv.1 = kv.2 := by
  intro l
  induction l with
  | nil => intro _ kv hkv; cases hkv
  | cons a rest ih =>
      intro hnd kv hkv
      obtain ⟨a1, a2⟩ := a
      simp only [List.map_cons, List.nodup_cons] at hnd
      rcases List.mem_cons.mp hkv with rfl | hkv2
      · simp [lookupCount, List.find?_cons]
      · have hne : (a1 == kv.1) = false := by
          rw [beq_eq_false_iff_ne]
          intro he
          exact hnd.1 (he ▸ List.mem_map.mpr ⟨kv, hkv2, rfl⟩)
        simp only [lookupCount, List.find?_cons, hne]
        exact ih hnd.2 kv hkv2

/-- A positive first-match count exhibits an entry of the list. -/
theorem lookupCount_pos_mem (l : List (String × Nat)) (d : String)
    (h : 0 < lookupCount l d) :
    ∃ kv ∈ l, kv.1 = d ∧ kv.2 = lookupCount l d := by
  unfold lookupCount at h ⊢
  cases hf : l.find? (fun kv => kv.1 == d) with
  | none => rw [hf] at h; simp at h
  | some kv =>
      refine ⟨kv, List.mem_of_find?_eq_some hf, ?_, rfl⟩
      have := List.find?_some hf
      simpa [beq_iff_eq] using this

/-- The inner property loop of the detection equals a fold over the
(name, member) pairs of the string-literal properties. -/
theorem duAcc_pairs (symtab : SymbolTable) (ut : SType) :
    ∀ (ps : List String)
      (acc : List (String × Nat) × List (String × List DiscriminatedUnionMember)),
      ps.foldl (duAccProperty symtab ut) acc =
        ((ps.filterMap (fun p =>
          match (valueSignatureTpe (symtab.infos p)).bind stringLiteralType with
          | some lit => some ((symtab.infos p).display_name, lit)
          | none => none)).map
            (fun pr => (pr.1, ({ value := pr.2, type := ut } : DiscriminatedUnionMember)))).foldl
          duPairStep acc := by
  intro ps
  induction ps with
  | nil => intro acc; rfl
  | cons p rest ih =>
      intro acc
      simp only [List.foldl_cons, List.filterMap_cons]
      cases hm : (valueSignatureTpe (symtab.infos p)).bind stringLiteralType with
      | none =>
          simp only [hm]
          rw [← ih]
          congr 1
          simp [duAccProperty, hm]
      | some lit =>
          simp only [hm, List.map_cons, List.foldl_cons]
          rw [← ih]
          congr 1
          simp [duAccProperty, hm, duPairStep]

/-- The member loop of the detection equals a fold over all (name,
member) pairs, in member order. -/
theorem duFold_pairs (symtab : SymbolTable) :
    ∀ (uts : List SType)
      (acc : List (String × Nat) × List (String × List DiscriminatedUnionMember)),
      uts.foldl (duAccUnionType symtab) acc =
        (uts.flatMap (fun ut => (stringLitProps symtab ut).map
          (fun pr => (pr.1, ({ value := pr.2, type := ut } : DiscriminatedUnionMember))))).foldl
          duPairStep acc := by
  intro uts
  induction uts with
  | nil => intro acc; rfl
  | cons ut rest ih =>
      intro acc
      simp only [List.foldl_cons, List.flatMap_cons, List.foldl_append]
      rw [ih]
      congr 1
      exact duAcc_pairs symtab ut (propertiesOf symtab ut) acc

/-- A union none of whose members is an alias of a further union
flattens to itself, for any fuel. -/
theorem unionTypesAux_id (symtab : SymbolTable) (ts : List SType)
    (h : ∀ m ∈ ts, unionAliasBound symtab m = none) :
    ∀ fuel, unionTypesAux symtab fuel ts = ts := by
  have hexp : expandUnionOnce symtab ts = ts := by
    unfold expandUnionOnce
    induction ts with
    | nil => rfl
    | cons m rest ih =>
        simp only [List.flatMap_cons]
        rw [h m (List.mem_cons_self m rest)]
        simp only [List.singleton_append]
        congr 1
        exact ih (fun x hx => h x (List.mem_cons_of_mem m hx))
  intro fuel
  induction fuel with
  | zero =>
      simp only [unionTypesAux]
      rw [List.filter_eq_self]
      intro m hm
      simp [h m hm]
  | succ f ihf =>
      simp only [unionTypesAux, hexp]
      exact ihf

/-- Pair counts distribute over the per-member pair lists. -/
theorem countP_flatMap_pairs (symtab : SymbolTable) (d : String) :
    ∀ uts : List SType,
      ((uts.flatMap (fun ut => (stringLitProps symtab ut).map
          (fun pr => (pr.1, ({ value := pr.2, type := ut } : DiscriminatedUnionMember))))).countP
        (fun e => e.1 == d)) =
      (uts.map (fun ut => (stringLitProps symtab ut).countP (fun pr => pr.1 == d))).sum := by
  intro uts
  induction uts with
  | nil => rfl
  | cons ut rest ih =>
      simp only [List.flatMap_cons, List.countP_append, List.map_cons, List.sum_cons, ih]
      congr 1
      rw [List.countP_map]
      rfl

/-- A sum of per-member tallies that are all one is the member count. -/
theorem sum_ones_eq_length (f : SType → Nat) :
    ∀ uts : List SType, (∀ m ∈ uts, f m = 1) → (uts.map f).sum = uts.length := by
  intro uts
  induction uts with
  | nil => intro _; rfl
  | cons u rest ih =>
      intro h
      simp only [List.map_cons, List.sum_cons, List.length_cons]
      rw [h u (List.mem_cons_self u rest), ih (fun x hx => h x (List.mem_cons_of_mem u hx))]
      omega

/-- A sum of per-member tallies bounded by one is at most the member
count. -/
theorem sum_le_length (f : SType → Nat) :
    ∀ uts : List SType, (∀ m ∈ uts, f m ≤ 1) → (uts.map f).sum ≤ uts.length := by
  intro uts
  induction uts with
  | nil => intro _; simp
  | cons u rest ih =>
      intro h
      simp only [List.map_cons, List.sum_cons, List.length_cons]
      have h1 := h u (List.mem_cons_self u rest)
      have h2 := ih (fun x hx => h x (List.mem_cons_of_mem u hx))
      omega

/-- When some member tallies zero, the sum is strictly below the member
count. -/
theorem sum_lt_length (f : SType → Nat) :
    ∀ uts : List SType, (∀ m ∈ uts, f m ≤ 1) → (∃ m ∈ uts, f m = 0) →
      (uts.map f).sum < uts.length := by
  intro uts
  induction uts with
  | nil =>
      rintro _ ⟨m, hm, _⟩
      cases hm
  | cons u rest ih =>
      rintro h ⟨m, hm, hz⟩
      simp only [List.map_cons, List.sum_cons, List.length_cons]
      rcases List.mem_cons.mp hm with rfl | hm2
      · have h2 := sum_le_length f rest (fun x hx => h x (List.mem_cons_of_mem m hx))
        omega
      · have h1 := h u (List.mem_cons_self u rest)
        have h2 := ih (fun x hx => h x (List.mem_cons_of_mem u hx)) ⟨m, hm2, hz⟩
        omega

/-- C4: for a type alias over a non-empty union (with no further
union-alias nesting) in which every member carries a string-literal
property named `kind` (its string-literal property names pairwise
distinct) and no other property name is carried by all members,
`discriminatedUnion` detects the union: discriminator `kind`, the
alias symbol, and exactly one member entry per union constituent. -/
theorem c4_discriminated_union_kind (cfg : Codegen)
    (info : SymbolInformation) (types : List SType)
    (hsig : info.signature = some (.type_signature (.union_type types)))
    (hne : types ≠ [])
    (hflat : ∀ m ∈ types, unionAliasBound cfg.symtab m = none)
    (hnodup : ∀ m ∈ types, ((stringLitProps cfg.symtab m).map Prod.fst).Nodup)
    (hkind : ∀ m ∈ types, "kind" ∈ (stringLitProps cfg.symtab m).map Prod.fst)
    (hother : ∀ d : String, d ≠ "kind" →
      ∃ m ∈ types, d ∉ (stringLitProps cfg.symtab m).map Prod.fst) :
    ∃ du, discriminatedUnion cfg info = some du ∧
      du.symbol = info.symbol ∧
      du.discriminatorDisplayName = "kind" ∧
      du.members.length = types.length := by
  have hcm : ∀ (d : String) (m : SType),
      ((stringLitProps cfg.symtab m).map Prod.fst).count d =
        (stringLitProps cfg.symtab m).countP (fun pr => pr.1 == d) := by
    intro d m
    rw [List.count, List.countP_map]
    rfl
  set entries := types.flatMap (fun ut => (stringLitProps cfg.symtab ut).map
    (fun pr => (pr.1, ({ value := pr.2, type := ut } : DiscriminatedUnionMember))))
    with hentries
  have hkindN : entries.countP (fun e => e.1 == "kind") = types.length := by
    rw [hentries, countP_flatMap_pairs]
    exact sum_ones_eq_length _ types (fun m hm => by
      rw [← hcm "kind" m]
      exact List.count_eq_one_of_mem (hnodup m hm) (hkind m hm))
  have hotherN : ∀ d : String, d ≠ "kind" →
      entries.countP (fun e => e.1 == d) < types.length := by
    intro d hd
    rw [hentries, countP_flatMap_pairs]
    refine sum_lt_length _ types ?_ ?_
    · intro m hm
      rw [← hcm d m]
      exact List.nodup_iff_count_le_one.mp (hnodup m hm) d
    · obtain ⟨m, hm, habs⟩ := hother d hd
      exact ⟨m, hm, by rw [← hcm d m]; exact List.count_eq_zero.mpr habs⟩
  have hlenpos : 0 < types.length := List.length_pos.mpr hne
  have hE : types.isEmpty = false := by
    cases types with
    | nil => exact absurd rfl hne
    | cons a l => rfl
  have huts : unionTypes cfg.symtab (.union_type types) = types := by
    simp only [unionTypes]
    exact unionTypesAux_id cfg.symtab types hflat unionTypesFuel
  have hacc : types.foldl (duAccUnionType cfg.symtab) ([], []) =
      entries.foldl duPairStep ([], []) := by
    rw [hentries]
    exact duFold_pairs cfg.symtab types ([], [])
  set cand := (entries.foldl duPairStep ([], [])).1 with hcand
  set memb := (entries.foldl duPairStep ([], [])).2 with hmemb
  have hlookup : ∀ d, lookupCount cand d = entries.countP (fun e => e.1 == d) := by
    intro d
    rw [hcand, foldPairs_count]
    simp [lookupCount]
  have hnodupKeys : (cand.map Prod.fst).Nodup := by
    rw [hcand]
    exact foldPairs_keys_nodup entries ([], []) (by simp)
  have hsome : ∃ kv ∈ cand, (kv.2 == types.length) = true := by
    have h1 : 0 < lookupCount cand "kind" := by
      rw [hlookup, hkindN]
      omega
    obtain ⟨kv, hkv, hk1, hk2⟩ := lookupCount_pos_mem cand "kind" h1
    refine ⟨kv, hkv, ?_⟩
    rw [hk2, hlookup, hkindN]
    simp
  cases hfind : cand.find? (fun kv => kv.2 == types.length) with
  | none =>
      exfalso
      obtain ⟨kv, hkv, hp⟩ := hsome
      have hnone := List.find?_eq_none.mp hfind kv hkv
      rw [hp] at hnone
      exact hnone rfl
  | some kv =>
      have hkvmem := List.mem_of_find?_eq_some hfind
      have hkvpred := List.find?_some hfind
      have hkv2 : kv.2 = types.length := by simpa using hkvpred
      have hkvlookup : lookupCount cand kv.1 = kv.2 :=
        assoc_self_lookup cand hnodupKeys kv hkvmem
      have hkv1 : kv.1 = "kind" := by
        by_contra hne2
        have hlt := hotherN kv.1 hne2
        rw [← hlookup, hkvlookup, hkv2] at hlt
        omega
      refine ⟨{ symbol := info.symbol, discriminatorDisplayName := kv.1,
                members := lookupMembers memb kv.1 }, ?_, rfl, hkv1, ?_⟩
      · have h1 : discriminatedUnion cfg info
            = duFound cfg.symtab info.symbol (unionTypes cfg.symtab (.union_type types)) := by
          unfold discriminatedUnion
          rw [hsig]
          show (if types.isEmpty = true then none
              else duFound cfg.symtab info.symbol (unionTypes cfg.symtab (.union_type types)))
            = duFound cfg.symtab info.symbol (unionTypes cfg.symtab (.union_type types))
          rw [hE]
          simp only [Bool.false_eq_true, if_false]
        rw [huts] at h1
        have h2 : duFound cfg.symtab info.symbol types
            = (cand.find? (fun kv => kv.2 == types.length)).map (fun kv =>
                ({ symbol := info.symbol, discriminatorDisplayName := kv.1,
                   members := lookupMembers memb kv.1 } : DiscriminatedUnion)) := by
          unfold duFound
          show ((types.foldl (duAccUnionType cfg.symtab) ([], [])).1.find?
              (fun kv => kv.2 == types.length)).map (fun kv =>
              ({ symbol := info.symbol, discriminatorDisplayName := kv.1,
                 members := lookupMembers
                   (types.foldl (duAccUnionType cfg.symtab) ([], [])).2 kv.1 }
                : DiscriminatedUnion))
            = (cand.find? (fun kv => kv.2 == types.length)).map (fun kv =>
                ({ symbol := info.symbol, discriminatorDisplayName := kv.1,
                   members := lookupMembers memb kv.1 } : DiscriminatedUnion))
          rw [hacc, ← hcand, ← hmemb]
        rw [h1, h2, hfind]
        rfl
      · show (lookupMembers memb kv.1).length = types.length
        rw [hmemb, foldPairs_members_len]
        simp only [lookupMembers, List.find?_nil]
        rw [hkv1]
        simpa using hkindN

/-- Concrete run of the detection theorem: the two-member union behind
the alias `U#`, each member exposing the string-literal property
`kind`, is detected with discriminator `kind` and two member entries. -/
theorem c4_witness :
    ∃ du, discriminatedUnion duCfg (duSymtab.infos "U#") = some du ∧
      du.symbol = (duSymtab.infos "U#").symbol ∧
      du.discriminatorDisplayName = "kind" ∧
      du.members.length = 2 := by
  refine c4_discriminated_union_kind duCfg (duSymtab.infos "U#")
    [SType.structural_type ["U#a.kind."], SType.structural_type ["U#b.kind."]]
    rfl (List.cons_ne_nil _ _) ?_ ?_ ?_ ?_
  · intro m hm
    rcases List.mem_cons.mp hm with rfl | hm2
    · rfl
    · rcases List.mem_cons.mp hm2 with rfl | hm3
      · rfl
      · cases hm3
  · intro m hm
    rcases List.mem_cons.mp hm with rfl | hm2
    · show (["kind"] : List String).Nodup
      exact List.nodup_singleton _
    · rcases List.mem_cons.mp hm2 with rfl | hm3
      · show (["kind"] : List String).Nodup
        exact List.nodup_singleton _
      · cases hm3
  · intro m hm
    rcases List.mem_cons.mp hm with rfl | hm2
    · show "kind" ∈ (["kind"] : List String)
      exact List.mem_cons_self _ _
    · rcases List.mem_cons.mp hm2 with rfl | hm3
      · show "kind" ∈ (["kind"] : List String)
        exact List.mem_cons_self _ _
      · cases hm3
  · intro d hd
    refine ⟨SType.structural_type ["U#a.kind."], List.mem_cons_self _ _, ?_⟩
    show d ∉ (["kind"] : List String)
    simpa using hd
